import Mathlib

/-!
Verification of the model-artifact resolution and backend construction
pipeline of `src/backends/onnx/onnx_backend_factory.cc`
(`OnnxBackendFactory::Create`, `OnnxBackendFactory::CreateBackend`,
`OnnxBackendFactory::~OnnxBackendFactory`).

The C++ code is shallowly embedded as executable Lean functions.  The
external collaborators that the factory calls (directory enumeration,
subdirectory localization, file reading, backend initialization,
execution-context creation) are not part of the translated file; each is
represented by an oracle in an `Env` record that says whether the call
succeeds or returns an error, exactly as the factory observes it through
its `Status` return values.  The factory's own control flow — the
`RETURN_IF_ERROR` short-circuiting, the per-file allocation of the
`local_onnx` vector, the indexing of that vector inside the subdirectory
loop, the `emplace` calls building the `models` map, the scope-exit
destruction of the `TemporaryDirectory` handles — is translated
faithfully from the source.  Executions additionally record a trace of
events so that ordering and lifetime properties can be stated.
-/

namespace TritonOnnx

/-- File contents as a sequence of bytes (each entry < 256 in intended use;
nothing below depends on a bound). -/
abbrev Bytes := List Nat

/-- `ModelConfig` is passed through `CreateBackend` unchanged and never
inspected by the factory, so it is kept opaque. -/
abbrev ModelConfig := String

/-- `kOnnxRuntimeOnnxPlatform` from `src/core/constants.h`. -/
def kOnnxRuntimeOnnxPlatform : String := "onnxruntime_onnx"

/-- A directory entry is hidden when its name begins with the platform's
hidden-entry marker (a leading dot). -/
def isHidden (name : String) : Bool :=
  match name.data with
  | [] => false
  | c :: _ => c == '.'

/-- The listing of a model directory, as the two enumeration calls in
`CreateBackend` observe it: the regular files with their on-disk byte
contents, and the immediate subdirectory names.  The lists stand for the
iteration sequences of the `std::set` results, so they are duplicate-free
in any run against a real directory; theorems that need this take it as a
hypothesis. -/
structure ModelDir where
  files : List (String × Bytes)
  subdirs : List String
deriving DecidableEq, Repr

/-- The non-hidden regular files: `GetDirectoryFiles(path, true /- skip
hidden -/ , &onnx_files)` (the flag is explicit at the call site). -/
def filteredFiles (d : ModelDir) : List (String × Bytes) :=
  d.files.filter (fun p => !isHidden p.1)

/-- Modelled from the spec: `GetDirectorySubdirs` is implemented outside
this file; the spec states that hidden entries (platform-defined naming
convention) are excluded from the artifact set, so the enumeration of
subdirectories excludes hidden names. -/
def filteredSubdirs (d : ModelDir) : List String :=
  d.subdirs.filter (fun n => !isHidden n)

/-- One entry of the `models` map: the `std::pair<bool, std::string>` of
the source, where `true` marks inline file contents and `false` marks the
path of a localized subdirectory copy.  Following the spec's data model
it is written as a tagged union. -/
inductive ArtifactEntry where
  | Inline (content : Bytes)
  | Localized (path : String)
deriving DecidableEq, Repr

/-- A `TemporaryDirectory` handle from the `local_onnx` vector: its
position in the vector and its `model_path`. -/
structure TemporaryDirectory where
  idx : Nat
  model_path : String
deriving DecidableEq, Repr

/-- Oracles for the external collaborators of `CreateBackend` and
`Create`: each field gives the error (if any) that the corresponding
call reports, and `tmpPath` gives the path a freshly constructed
`TemporaryDirectory` receives. -/
structure Env where
  getFilesErr : Option String
  getSubdirsErr : Option String
  localizeErr : String → Option String
  readErr : String → Option String
  initErr : Option String
  cecErr : Option String
  tmpPath : Nat → String

/-- Events recorded by an execution of `CreateBackend`. -/
inductive Event where
  | getFiles
  | getSubdirs
  | allocStore (idx : Nat)
  | localize (dirname : String) (storeIdx : Nat)
  | readFile (filename : String)
  | backendInit
  | createExecCtxs
  | releaseStore (idx : Nat)
deriving DecidableEq, Repr

/-- The backend object built at the end of `CreateBackend`: the
constructor argument, the `Init` arguments and the map handed to
`CreateExecutionContexts`. -/
structure OnnxBackend where
  min_compute_capability : Nat
  path : String
  model_config : ModelConfig
  platform : String
  models : List (String × ArtifactEntry)
deriving DecidableEq, Repr

/-- Result of a `CreateBackend` run.  `undefinedBehavior` marks the
out-of-bounds `local_onnx[i]` access that the C++ performs when the
subdirectory loop index reaches the vector size; from that point the C++
program has no defined behavior, so the model stops there. -/
inductive CBResult where
  | ok (b : OnnxBackend)
  | err (e : String)
  | undefinedBehavior
deriving DecidableEq, Repr

/-- Full observable outcome of a `CreateBackend` call: the returned
status/backend, the state of the output parameter, the final `models`
map and the event trace. -/
structure CBState where
  result : CBResult
  backendOut : Option OnnxBackend
  models : List (String × ArtifactEntry)
  trace : List Event
deriving DecidableEq, Repr

/-- `models.emplace(key, value)`: `std::unordered_map::emplace` inserts
only when the key is not already present. -/
def emplace (m : List (String × ArtifactEntry)) (k : String) (v : ArtifactEntry) :
    List (String × ArtifactEntry) :=
  if m.any (fun p => p.1 == k) then m else m ++ [(k, v)]

/-- Lookup in the `models` map. -/
def lookupEntry (m : List (String × ArtifactEntry)) (k : String) : Option ArtifactEntry :=
  (m.find? (fun p => p.1 == k)).map Prod.snd

/-- The `local_onnx` vector: `onnx_files.size()` freshly constructed
`TemporaryDirectory("")` handles (lines 85–89 of the source — the size is
the number of files, not the number of subdirectories). -/
def mkStores (env : Env) (n : Nat) : List TemporaryDirectory :=
  (List.range n).map (fun s => { idx := s, model_path := env.tmpPath s })

/-- Value part of the subdirectory loop of `CreateBackend` (lines 93–102):
walk the subdirectory names with running index `i`, evaluate
`local_onnx[i]` (out of bounds when `i` is not below the vector length —
`oob`), call `LocalizeFileFolder`, and on success emplace
`(dirname, Localized(local_onnx[i]->model_path))`. -/
inductive LoopRes where
  | ok (models : List (String × ArtifactEntry))
  | err (e : String)
  | oob
deriving DecidableEq, Repr

def localizeLoopRes (env : Env) (stores : List TemporaryDirectory) :
    List String → Nat → List (String × ArtifactEntry) → LoopRes
  | [], _, m => .ok m
  | d :: ds, i, m =>
    match stores.get? i with
    | none => .oob
    | some st =>
      match env.localizeErr d with
      | some e => .err e
      | none => localizeLoopRes env stores ds (i + 1) (emplace m d (.Localized st.model_path))

/-- Event part of the subdirectory loop: one `localize` event per
attempted `LocalizeFileFolder` call, stopping at the first failure or at
the out-of-bounds access (which happens before the call). -/
def localizeLoopTr (env : Env) (stores : List TemporaryDirectory) :
    List String → Nat → List Event
  | [], _ => []
  | d :: ds, i =>
    match stores.get? i with
    | none => []
    | some _ =>
      match env.localizeErr d with
      | some _ => [.localize d i]
      | none => .localize d i :: localizeLoopTr env stores ds (i + 1)

/-- Value part of the file loop of `CreateBackend` (lines 104–113):
`ReadTextFile` each file and emplace `(filename, Inline(contents))`.

Modelled from the spec: `ReadTextFile`'s implementation is outside this
file; the spec (§4.2 step 4) states that a file's full contents are read
as raw bytes, byte-exact, so a successful read yields exactly the
directory entry's contents. -/
def readLoopRes (env : Env) :
    List (String × Bytes) → List (String × ArtifactEntry) →
      Except String (List (String × ArtifactEntry))
  | [], m => .ok m
  | (name, content) :: fs, m =>
    match env.readErr name with
    | some e => .error e
    | none => readLoopRes env fs (emplace m name (.Inline content))

/-- Event part of the file loop: one `readFile` event per attempted
read, stopping at the first failure. -/
def readLoopTr (env : Env) : List (String × Bytes) → List Event
  | [] => []
  | (name, _) :: fs =>
    match env.readErr name with
    | some _ => [.readFile name]
    | none => .readFile name :: readLoopTr env fs

/-- Scope-exit destruction of the `local_onnx` vector: every
`TemporaryDirectory` handle is released when `CreateBackend` returns
(nothing else keeps them alive — the `models` map stores only the path
strings). -/
def releaseEvents (n : Nat) : List Event :=
  (List.range n).map Event.releaseStore

/-- Events up to and including the allocation of the `local_onnx`
vector. -/
def preTrace (n : Nat) : List Event :=
  [Event.getFiles, Event.getSubdirs] ++ (List.range n).map Event.allocStore

/-- The `local_onnx` vector of a `CreateBackend` call on `dir`. -/
def localOnnx (env : Env) (dir : ModelDir) : List TemporaryDirectory :=
  mkStores env (filteredFiles dir).length

/-- Result of the subdirectory loop of a `CreateBackend` call on `dir`. -/
def subdirResolve (env : Env) (dir : ModelDir) : LoopRes :=
  localizeLoopRes env (localOnnx env dir) (filteredSubdirs dir) 0 []

/-- Events of the subdirectory loop of a `CreateBackend` call on `dir`. -/
def subdirTrace (env : Env) (dir : ModelDir) : List Event :=
  localizeLoopTr env (localOnnx env dir) (filteredSubdirs dir) 0

/-- Result of the file loop of a `CreateBackend` call on `dir`, starting
from the map the subdirectory loop produced. -/
def fileResolve (env : Env) (dir : ModelDir) (m1 : List (String × ArtifactEntry)) :
    Except String (List (String × ArtifactEntry)) :=
  readLoopRes env (filteredFiles dir) m1

/-- Events of the file loop of a `CreateBackend` call on `dir`. -/
def fileTrace (env : Env) (dir : ModelDir) : List Event :=
  readLoopTr env (filteredFiles dir)

/-- `OnnxBackendFactory::CreateBackend` (lines 65–125), translated
step by step:
enumerate non-hidden files, enumerate subdirectories, allocate one
`TemporaryDirectory` per file, localize each subdirectory through
`local_onnx[i]`, read each file, construct the backend, `Init` it,
`CreateExecutionContexts` with the `models` map, and assign the output
parameter only on full success.  Every `RETURN_IF_ERROR` exit releases
the already-allocated stores on the way out. -/
def CreateBackendRun (env : Env) (dir : ModelDir) (path : String)
    (model_config : ModelConfig) (min_compute_capability : Nat) : CBState :=
  match env.getFilesErr with
  | some e => { result := .err e, backendOut := none, models := [], trace := [Event.getFiles] }
  | none =>
    match env.getSubdirsErr with
    | some e =>
      { result := .err e, backendOut := none, models := [],
        trace := [Event.getFiles, Event.getSubdirs] }
    | none =>
      match subdirResolve env dir with
      | .oob =>
        { result := .undefinedBehavior, backendOut := none, models := [],
          trace := preTrace (filteredFiles dir).length ++ subdirTrace env dir }
      | .err e =>
        { result := .err e, backendOut := none, models := [],
          trace := preTrace (filteredFiles dir).length ++ subdirTrace env dir ++
            releaseEvents (filteredFiles dir).length }
      | .ok models1 =>
        match fileResolve env dir models1 with
        | .error e =>
          { result := .err e, backendOut := none, models := models1,
            trace := preTrace (filteredFiles dir).length ++ subdirTrace env dir ++
              fileTrace env dir ++ releaseEvents (filteredFiles dir).length }
        | .ok models2 =>
          match env.initErr with
          | some e =>
            { result := .err e, backendOut := none, models := models2,
              trace := preTrace (filteredFiles dir).length ++ subdirTrace env dir ++
                fileTrace env dir ++ [Event.backendInit] ++
                releaseEvents (filteredFiles dir).length }
          | none =>
            match env.cecErr with
            | some e =>
              { result := .err e, backendOut := none, models := models2,
                trace := preTrace (filteredFiles dir).length ++ subdirTrace env dir ++
                  fileTrace env dir ++ [Event.backendInit, Event.createExecCtxs] ++
                  releaseEvents (filteredFiles dir).length }
            | none =>
              { result := .ok
                  { min_compute_capability := min_compute_capability,
                    path := path, model_config := model_config,
                    platform := kOnnxRuntimeOnnxPlatform, models := models2 },
                backendOut := some
                  { min_compute_capability := min_compute_capability,
                    path := path, model_config := model_config,
                    platform := kOnnxRuntimeOnnxPlatform, models := models2 },
                models := models2,
                trace := preTrace (filteredFiles dir).length ++ subdirTrace env dir ++
                  fileTrace env dir ++ [Event.backendInit, Event.createExecCtxs] ++
                  releaseEvents (filteredFiles dir).length }

/-- Generic backend configuration as `Create` receives it: either the
ONNX runtime-specific shape or a configuration of some other runtime.
The payloads are opaque. -/
inductive BackendConfig where
  | onnx (settings : String)
  | other (kind : String)
deriving DecidableEq, Repr

/-- Modelled from the spec: the spec says `Create` "down-casts the
generic configuration to the runtime-specific shape (fails with
`ConfigTypeError` if incompatible)".  This predicate states,
in the spec's words, when a configuration matches the ONNX runtime
shape; it is the comparison point for what the code actually does. -/
def matchesRuntimeShape : BackendConfig → Bool
  | .onnx _ => true
  | .other _ => false

/-- The error the spec says an incompatible configuration produces. -/
def ConfigTypeError : String := "ConfigTypeError"

/-- The factory object: it stores the (statically down-cast)
configuration pointer. -/
structure OnnxBackendFactory where
  backend_config : BackendConfig
deriving DecidableEq, Repr

/-- Events of an `OnnxBackendFactory::Create` run: constructing the
local factory, `OnnxLoader::Init()`, and `OnnxLoader::Stop()` (the
destructor body, lines 43–46). -/
inductive FEvent where
  | construct
  | loaderInit
  | loaderStop
deriving DecidableEq, Repr

instance : DecidableEq (Except String OnnxBackendFactory) := fun
  | .ok a, .ok b =>
    if h : a = b then .isTrue (by rw [h]) else .isFalse (by intro hc; cases hc; exact h rfl)
  | .ok _, .error _ => .isFalse (by intro h; cases h)
  | .error _, .ok _ => .isFalse (by intro h; cases h)
  | .error a, .error b =>
    if h : a = b then .isTrue (by rw [h]) else .isFalse (by intro hc; cases hc; exact h rfl)

/-- Observable outcome of `Create`: returned status or factory, the
state of the output parameter, and the event trace. -/
structure CreateState where
  result : Except String OnnxBackendFactory
  factoryOut : Option OnnxBackendFactory
  trace : List FEvent
deriving DecidableEq, Repr

/-- `OnnxBackendFactory::Create` (lines 48–63), translated step by step:
`static_pointer_cast<Config>` reinterprets the configuration with no
runtime check, the local factory is constructed from it, then
`RETURN_IF_ERROR(OnnxLoader::Init())`.  On `Init` failure the function
returns without touching the output parameter, and the local
`unique_ptr` destroys the factory on the way out, which runs the
destructor and hence `OnnxLoader::Stop()`.  On success the factory is
moved into the output parameter (so no `Stop` happens inside `Create`).
`factoryIn` is the value held by the output parameter at entry. -/
def OnnxBackendFactoryCreate (initErr : Option String) (backend_config : BackendConfig)
    (factoryIn : Option OnnxBackendFactory) : CreateState :=
  let local_ : OnnxBackendFactory := { backend_config }
  match initErr with
  | some e =>
    { result := .error e, factoryOut := factoryIn,
      trace := [.construct, .loaderInit, .loaderStop] }
  | none =>
    { result := .ok local_, factoryOut := some local_,
      trace := [.construct, .loaderInit] }

/-! ### Derived observations and spec-level descriptions -/

/-- The error carried by a `CreateBackend` result, if any. -/
def resultErr : CBResult → Option String
  | .err e => some e
  | _ => none

/-- The backend carried by a `CreateBackend` result, if any. -/
def resultBackend : CBResult → Option OnnxBackend
  | .ok b => some b
  | _ => none

/-- The first `some` value of `f` along a list. -/
def firstSome {α : Type} (f : α → Option String) : List α → Option String
  | [] => none
  | a :: as =>
    match f a with
    | some e => some e
    | none => firstSome f as

/-- Spec-level description (§4.2 steps 1–4, §7) of the first error of the
resolution phase, written from the spec's step order independently of
`CreateBackendRun`: enumeration of files, enumeration of
subdirectories, localization of each subdirectory in order, then the
read of each file in order. -/
def resolutionFirstError (env : Env) (dir : ModelDir) : Option String :=
  env.getFilesErr <|> env.getSubdirsErr <|>
    firstSome env.localizeErr (filteredSubdirs dir) <|>
    firstSome (fun p => env.readErr p.1) (filteredFiles dir)

/-- Spec-level description of the first error of the whole
`CreateBackend` pipeline: resolution, then backend `Init`, then
`CreateExecutionContexts`. -/
def firstErrorSpec (env : Env) (dir : ModelDir) : Option String :=
  resolutionFirstError env dir <|> env.initErr <|> env.cecErr

/-- The `models` map a fully successful resolution produces: one
`Localized` entry per non-hidden subdirectory (the i-th subdirectory
using the i-th store's path) followed by one `Inline` entry per
non-hidden file. -/
def subdirEntries (env : Env) : Nat → List String → List (String × ArtifactEntry)
  | _, [] => []
  | i, d :: ds => (d, ArtifactEntry.Localized (env.tmpPath i)) :: subdirEntries env (i + 1) ds

def resolvedModels (env : Env) (dir : ModelDir) : List (String × ArtifactEntry) :=
  subdirEntries env 0 (filteredSubdirs dir) ++
    (filteredFiles dir).map (fun p => (p.1, ArtifactEntry.Inline p.2))

/-- Event classifiers. -/
def isRelease : Event → Bool
  | .releaseStore _ => true
  | _ => false

def isAlloc : Event → Bool
  | .allocStore _ => true
  | _ => false

def isLocalizeEv : Event → Bool
  | .localize _ _ => true
  | _ => false

def isReadEv : Event → Bool
  | .readFile _ => true
  | _ => false

def allocIdx : Event → Option Nat
  | .allocStore i => some i
  | _ => none

def relIdx : Event → Option Nat
  | .releaseStore i => some i
  | _ => none

def isLocalizedEntryB : ArtifactEntry → Bool
  | .Localized _ => true
  | .Inline _ => false

/-- Once a release event occurs, only release events follow: resources
are released only at call exit. -/
def releasesSuffix : List Event → Bool
  | [] => true
  | e :: tl => if isRelease e then tl.all isRelease else releasesSuffix tl

/-- No release event occurs strictly before the first occurrence of
`target` in the trace. -/
def noReleaseBefore (target : Event) : List Event → Bool
  | [] => true
  | e :: tl =>
    if e == target then true
    else if isRelease e then !(tl.contains target) && noReleaseBefore target tl
    else noReleaseBefore target tl

/-- Every allocation event occurs before every localization event. -/
def allocsBeforeLocalizes : List Event → Bool
  | [] => true
  | e :: tl =>
    if isLocalizeEv e then !(tl.any isAlloc) && allocsBeforeLocalizes tl
    else allocsBeforeLocalizes tl

/-! ### Helper lemmas about the map and the stores -/

lemma mkStores_get?_inv (env : Env) {n j : Nat} {st : TemporaryDirectory}
    (h : (mkStores env n).get? j = some st) :
    st = { idx := j, model_path := env.tmpPath j } := by
  unfold mkStores at h
  rw [List.get?_map] at h
  cases hr : (List.range n).get? j with
  | none => rw [hr] at h; cases h
  | some a =>
    rw [hr] at h
    obtain ⟨hj, ha⟩ := List.get?_eq_some.mp hr
    rw [List.get_range] at ha
    cases h
    rw [← ha]

lemma emplace_of_not_mem {m : List (String × ArtifactEntry)} {k : String}
    (h : k ∉ m.map Prod.fst) (v : ArtifactEntry) :
    emplace m k v = m ++ [(k, v)] := by
  have hany : m.any (fun p => p.1 == k) = false := by
    rw [List.any_eq_false]
    intro p hp hbeq
    exact h (List.mem_map.mpr ⟨p, hp, by simpa using hbeq⟩)
  unfold emplace
  rw [hany]
  simp

lemma mem_keys_emplace {m : List (String × ArtifactEntry)} {k0 k : String}
    {v : ArtifactEntry} (h : k ∈ (emplace m k0 v).map Prod.fst) :
    k ∈ m.map Prod.fst ∨ k = k0 := by
  unfold emplace at h
  split at h
  · exact .inl h
  · rw [List.map_append, List.mem_append] at h
    rcases h with h | h
    · exact .inl h
    · simp at h
      exact .inr h

lemma values_emplace {m : List (String × ArtifactEntry)} {k0 : String}
    {v0 : ArtifactEntry} {p : String × ArtifactEntry}
    (h : p ∈ emplace m k0 v0) : p ∈ m ∨ p = (k0, v0) := by
  unfold emplace at h
  split at h
  · exact .inl h
  · rw [List.mem_append] at h
    rcases h with h | h
    · exact .inl h
    · simp at h
      exact .inr h

lemma lookupEntry_eq_none {m : List (String × ArtifactEntry)} {k : String}
    (h : ∀ p ∈ m, p.1 ≠ k) : lookupEntry m k = none := by
  unfold lookupEntry
  rw [List.find?_eq_none.mpr]
  · rfl
  · intro p hp hbeq
    exact h p hp (by simpa using hbeq)

lemma find?_append_none {p : String × ArtifactEntry → Bool} :
    ∀ {l1 l2 : List (String × ArtifactEntry)}, l1.find? p = none →
      (l1 ++ l2).find? p = l2.find? p := by
  intro l1
  induction l1 with
  | nil => intro l2 _; rfl
  | cons a tl ih =>
    intro l2 h
    rw [List.find?_cons] at h
    rw [List.cons_append, List.find?_cons]
    cases hp : p a with
    | true => simp [hp] at h
    | false =>
      rw [hp] at h
      have h2 : tl.find? p = none := h
      simp only [hp]
      exact ih h2

lemma find?_append_some {p : String × ArtifactEntry → Bool} :
    ∀ {l1 l2 : List (String × ArtifactEntry)} {x : String × ArtifactEntry},
      l1.find? p = some x → (l1 ++ l2).find? p = some x := by
  intro l1
  induction l1 with
  | nil => intro l2 x h; cases h
  | cons a tl ih =>
    intro l2 x h
    rw [List.find?_cons] at h
    rw [List.cons_append, List.find?_cons]
    cases hp : p a with
    | true =>
      rw [hp] at h
      have h2 : some a = some x := h
      simp only [hp]
      exact h2
    | false =>
      rw [hp] at h
      have h2 : tl.find? p = some x := h
      simp only [hp]
      exact ih h2

/-! ### Helper lemmas about the localization loop -/

lemma localizeLoopRes_err_inv (env : Env) (stores : List TemporaryDirectory) :
    ∀ (ds : List String) (i : Nat) (m : List (String × ArtifactEntry)) (e : String),
      localizeLoopRes env stores ds i m = .err e →
      firstSome env.localizeErr ds = some e := by
  intro ds
  induction ds with
  | nil => intro i m e h; simp [localizeLoopRes] at h
  | cons d tl ih =>
    intro i m e h
    unfold localizeLoopRes at h
    cases hg : stores.get? i with
    | none => rw [hg] at h; cases h
    | some st =>
      rw [hg] at h
      cases hl : env.localizeErr d with
      | some e2 =>
        rw [hl] at h
        cases h
        simp [firstSome, hl]
      | none =>
        rw [hl] at h
        simp only [firstSome, hl]
        exact ih _ _ _ h

lemma localizeLoopRes_ok_localizeErr_none (env : Env) (stores : List TemporaryDirectory) :
    ∀ (ds : List String) (i : Nat) (m m2 : List (String × ArtifactEntry)),
      localizeLoopRes env stores ds i m = .ok m2 →
      ∀ d ∈ ds, env.localizeErr d = none := by
  intro ds
  induction ds with
  | nil => intro i m m2 _ d hd; cases hd
  | cons d0 tl ih =>
    intro i m m2 h d hd
    unfold localizeLoopRes at h
    cases hg : stores.get? i with
    | none => rw [hg] at h; cases h
    | some st =>
      rw [hg] at h
      cases hl : env.localizeErr d0 with
      | some e2 => rw [hl] at h; cases h
      | none =>
        rw [hl] at h
        rcases List.mem_cons.mp hd with rfl | hd2
        · exact hl
        · exact ih _ _ _ h d hd2

lemma localizeLoopRes_keys (env : Env) (stores : List TemporaryDirectory) :
    ∀ (ds : List String) (i : Nat) (m m2 : List (String × ArtifactEntry)),
      localizeLoopRes env stores ds i m = .ok m2 →
      ∀ k, k ∈ m2.map Prod.fst → k ∈ m.map Prod.fst ∨ k ∈ ds := by
  intro ds
  induction ds with
  | nil =>
    intro i m m2 h k hk
    unfold localizeLoopRes at h
    cases h
    exact .inl hk
  | cons d tl ih =>
    intro i m m2 h k hk
    unfold localizeLoopRes at h
    cases hg : stores.get? i with
    | none => rw [hg] at h; cases h
    | some st =>
      rw [hg] at h
      cases hl : env.localizeErr d with
      | some e2 => rw [hl] at h; cases h
      | none =>
        rw [hl] at h
        rcases ih _ _ _ h k hk with hm | htl
        · rcases mem_keys_emplace hm with hm2 | rfl
          · exact .inl hm2
          · exact .inr (List.mem_cons_self _ _)
        · exact .inr (List.mem_cons_of_mem _ htl)

lemma localizeLoopRes_ne_oob (env : Env) {n : Nat} :
    ∀ (ds : List String) (i : Nat) (m : List (String × ArtifactEntry)),
      i + ds.length ≤ n →
      localizeLoopRes env (mkStores env n) ds i m ≠ .oob := by
  intro ds
  induction ds with
  | nil => intro i m _ h; simp [localizeLoopRes] at h
  | cons d tl ih =>
    intro i m hle h
    unfold localizeLoopRes at h
    have hi : i < n := by
      simp only [List.length_cons] at hle
      omega
    have hg : (mkStores env n).get? i = some { idx := i, model_path := env.tmpPath i } := by
      unfold mkStores
      rw [List.get?_map, List.get?_range hi]
      rfl
    rw [hg] at h
    cases hl : env.localizeErr d with
    | some e2 => rw [hl] at h; cases h
    | none =>
      rw [hl] at h
      refine ih (i + 1) _ ?_ h
      simp only [List.length_cons] at hle
      omega

lemma localizeLoopRes_ok_eq (env : Env) {n : Nat} :
    ∀ (ds : List String) (i : Nat) (m m2 : List (String × ArtifactEntry)),
      localizeLoopRes env (mkStores env n) ds i m = .ok m2 →
      ds.Nodup → (∀ d ∈ ds, d ∉ m.map Prod.fst) →
      m2 = m ++ subdirEntries env i ds := by
  intro ds
  induction ds with
  | nil =>
    intro i m m2 h _ _
    unfold localizeLoopRes at h
    cases h
    simp [subdirEntries]
  | cons d tl ih =>
    intro i m m2 h hnd hkeys
    unfold localizeLoopRes at h
    cases hg : (mkStores env n).get? i with
    | none => rw [hg] at h; cases h
    | some st =>
      rw [hg] at h
      cases hl : env.localizeErr d with
      | some e2 => rw [hl] at h; cases h
      | none =>
        rw [hl] at h
        have hst := mkStores_get?_inv env hg
        subst hst
        have h2 : localizeLoopRes env (mkStores env n) tl (i + 1)
            (emplace m d (ArtifactEntry.Localized (env.tmpPath i))) = LoopRes.ok m2 := h
        rw [emplace_of_not_mem (hkeys d (List.mem_cons_self _ _))] at h2
        have hnd2 := (List.nodup_cons.mp hnd).2
        have hd_tl := (List.nodup_cons.mp hnd).1
        have hkeys2 : ∀ d2 ∈ tl, d2 ∉ (m ++ [(d, ArtifactEntry.Localized (env.tmpPath i))]).map Prod.fst := by
          intro d2 hd2
          rw [List.map_append, List.mem_append]
          rintro (hm | hm)
          · exact hkeys d2 (List.mem_cons_of_mem _ hd2) hm
          · simp at hm
            exact hd_tl (hm ▸ hd2)
        have := ih (i + 1) _ _ h2 hnd2 hkeys2
        rw [this, List.append_assoc]
        rfl

/-! ### Helper lemmas about the read loop -/

lemma readLoopRes_err_inv (env : Env) :
    ∀ (fs : List (String × Bytes)) (m : List (String × ArtifactEntry)) (e : String),
      readLoopRes env fs m = .error e →
      firstSome (fun p => env.readErr p.1) fs = some e := by
  intro fs
  induction fs with
  | nil => intro m e h; simp [readLoopRes] at h
  | cons f tl ih =>
    intro m e h
    obtain ⟨name, content⟩ := f
    unfold readLoopRes at h
    cases hr : env.readErr name with
    | some e2 =>
      rw [hr] at h
      cases h
      simp [firstSome, hr]
    | none =>
      rw [hr] at h
      simp only [firstSome, hr]
      exact ih _ _ h

lemma readLoopRes_ok_readErr_none (env : Env) :
    ∀ (fs : List (String × Bytes)) (m m2 : List (String × ArtifactEntry)),
      readLoopRes env fs m = .ok m2 →
      ∀ p ∈ fs, env.readErr p.1 = none := by
  intro fs
  induction fs with
  | nil => intro m m2 _ p hp; cases hp
  | cons f tl ih =>
    intro m m2 h p hp
    obtain ⟨name, content⟩ := f
    unfold readLoopRes at h
    cases hr : env.readErr name with
    | some e2 => rw [hr] at h; cases h
    | none =>
      rw [hr] at h
      rcases List.mem_cons.mp hp with rfl | hp2
      · exact hr
      · exact ih _ _ h p hp2

lemma readLoopRes_keys (env : Env) :
    ∀ (fs : List (String × Bytes)) (m m2 : List (String × ArtifactEntry)),
      readLoopRes env fs m = .ok m2 →
      ∀ k, k ∈ m2.map Prod.fst → k ∈ m.map Prod.fst ∨ k ∈ fs.map Prod.fst := by
  intro fs
  induction fs with
  | nil =>
    intro m m2 h k hk
    unfold readLoopRes at h
    cases h
    exact .inl hk
  | cons f tl ih =>
    intro m m2 h k hk
    obtain ⟨name, content⟩ := f
    unfold readLoopRes at h
    cases hr : env.readErr name with
    | some e2 => rw [hr] at h; cases h
    | none =>
      rw [hr] at h
      rcases ih _ _ h k hk with hm | htl
      · rcases mem_keys_emplace hm with hm2 | rfl
        · exact .inl hm2
        · exact .inr (by simp)
      · exact .inr (by simp [List.mem_map] at htl ⊢; tauto)

lemma readLoopRes_ok_eq (env : Env) :
    ∀ (fs : List (String × Bytes)) (m m2 : List (String × ArtifactEntry)),
      readLoopRes env fs m = .ok m2 →
      (fs.map Prod.fst).Nodup → (∀ p ∈ fs, p.1 ∉ m.map Prod.fst) →
      m2 = m ++ fs.map (fun p => (p.1, ArtifactEntry.Inline p.2)) := by
  intro fs
  induction fs with
  | nil =>
    intro m m2 h _ _
    unfold readLoopRes at h
    cases h
    simp
  | cons f tl ih =>
    intro m m2 h hnd hkeys
    obtain ⟨name, content⟩ := f
    unfold readLoopRes at h
    cases hr : env.readErr name with
    | some e2 => rw [hr] at h; cases h
    | none =>
      rw [hr] at h
      have h2 : readLoopRes env tl (emplace m name (ArtifactEntry.Inline content)) =
          Except.ok m2 := h
      rw [emplace_of_not_mem (hkeys (name, content) (List.mem_cons_self _ _))] at h2
      simp only [List.map_cons] at hnd
      have hnd2 := (List.nodup_cons.mp hnd).2
      have hname_tl := (List.nodup_cons.mp hnd).1
      have hkeys2 : ∀ p ∈ tl, p.1 ∉ (m ++ [(name, ArtifactEntry.Inline content)]).map Prod.fst := by
        intro p hp
        rw [List.map_append, List.mem_append]
        rintro (hm | hm)
        · exact hkeys p (List.mem_cons_of_mem _ hp) hm
        · simp at hm
          exact hname_tl (hm ▸ List.mem_map.mpr ⟨p, hp, rfl⟩)
      have := ih _ _ h2 hnd2 hkeys2
      rw [this, List.append_assoc]
      rfl

lemma readLoopRes_no_localized (env : Env) :
    ∀ (fs : List (String × Bytes)) (m m2 : List (String × ArtifactEntry)),
      readLoopRes env fs m = .ok m2 →
      (∀ p ∈ m, isLocalizedEntryB p.2 = false) →
      ∀ p ∈ m2, isLocalizedEntryB p.2 = false := by
  intro fs
  induction fs with
  | nil =>
    intro m m2 h hm p hp
    unfold readLoopRes at h
    cases h
    exact hm p hp
  | cons f tl ih =>
    intro m m2 h hm p hp
    obtain ⟨name, content⟩ := f
    unfold readLoopRes at h
    cases hr : env.readErr name with
    | some e2 => rw [hr] at h; cases h
    | none =>
      rw [hr] at h
      refine ih _ _ h ?_ p hp
      intro q hq
      rcases values_emplace hq with hq2 | rfl
      · exact hm q hq2
      · rfl

/-! ### Helper lemmas about resolvedModels -/

lemma subdirEntries_keys (env : Env) : ∀ (i : Nat) (ds : List String),
    (subdirEntries env i ds).map Prod.fst = ds := by
  intro i ds
  induction ds generalizing i with
  | nil => rfl
  | cons d tl ih => simp [subdirEntries, ih]

lemma subdirEntries_values (env : Env) : ∀ (i : Nat) (ds : List String)
    (p : String × ArtifactEntry), p ∈ subdirEntries env i ds →
    ∃ j, p = (p.1, ArtifactEntry.Localized (env.tmpPath j)) := by
  intro i ds
  induction ds generalizing i with
  | nil => intro p hp; cases hp
  | cons d tl ih =>
    intro p hp
    rcases List.mem_cons.mp hp with rfl | hp2
    · exact ⟨i, rfl⟩
    · exact ih (i + 1) p hp2

lemma find?_subdirEntries_none {env : Env} {nm : String} :
    ∀ {i : Nat} {ds : List String}, nm ∉ ds →
      (subdirEntries env i ds).find? (fun r => r.1 == nm) = none := by
  intro i ds
  induction ds generalizing i with
  | nil => intro _; rfl
  | cons d tl ih =>
    intro h
    rw [List.mem_cons, not_or] at h
    simp only [subdirEntries, List.find?_cons]
    have hbeq : (d == nm) = false := by
      simp only [beq_eq_false_iff_ne, ne_eq]
      exact fun hdn => h.1 hdn.symm
    simp only [hbeq]
    exact ih h.2

lemma find?_subdirEntries_mem {env : Env} {nm : String} :
    ∀ (i : Nat) {ds : List String}, nm ∈ ds →
      ∃ j, (subdirEntries env i ds).find? (fun r => r.1 == nm) =
        some (nm, ArtifactEntry.Localized (env.tmpPath j)) := by
  intro i ds
  induction ds generalizing i with
  | nil => intro h; cases h
  | cons d tl ih =>
    intro h
    simp only [subdirEntries, List.find?_cons]
    cases hbeq : (d == nm) with
    | true =>
      have hd : d = nm := by simpa using hbeq
      subst hd
      exact ⟨i, by simp [hbeq]⟩
    | false =>
      have hd : d ≠ nm := by simpa using hbeq
      have h2 : nm ∈ tl := by
        rcases List.mem_cons.mp h with rfl | h2
        · exact absurd rfl hd
        · exact h2
      obtain ⟨j, hj⟩ := ih (i + 1) h2
      refine ⟨j, ?_⟩
      simp only [hbeq]
      exact hj

lemma find?_inlinePart {nm : String} {c : Bytes} :
    ∀ {fs : List (String × Bytes)}, (fs.map Prod.fst).Nodup → (nm, c) ∈ fs →
      (fs.map (fun p => (p.1, ArtifactEntry.Inline p.2))).find? (fun r => r.1 == nm) =
        some (nm, ArtifactEntry.Inline c) := by
  intro fs
  induction fs with
  | nil => intro _ h; cases h
  | cons f tl ih =>
    intro hnd hmem
    obtain ⟨a, b⟩ := f
    simp only [List.map_cons, List.find?_cons]
    cases hbeq : (a == nm) with
    | true =>
      have ha : a = nm := by simpa using hbeq
      subst ha
      have hb : b = c := by
        rcases List.mem_cons.mp hmem with heq | hmem2
        · cases heq; rfl
        · exfalso
          simp only [List.map_cons] at hnd
          exact (List.nodup_cons.mp hnd).1 (List.mem_map.mpr ⟨(a, c), hmem2, rfl⟩)
      subst hb
      simp [hbeq]
    | false =>
      have ha : a ≠ nm := by simpa using hbeq
      have hmem2 : (nm, c) ∈ tl := by
        rcases List.mem_cons.mp hmem with heq | hmem2
        · exact absurd (congrArg Prod.fst heq).symm ha
        · exact hmem2
      simp only [List.map_cons] at hnd
      simp only [hbeq]
      exact ih (List.nodup_cons.mp hnd).2 hmem2

lemma resolvedModels_keys (env : Env) (dir : ModelDir) :
    (resolvedModels env dir).map Prod.fst =
      filteredSubdirs dir ++ (filteredFiles dir).map Prod.fst := by
  unfold resolvedModels
  rw [List.map_append, subdirEntries_keys, List.map_map]
  rfl

/-! ### Helper lemmas about traces -/

lemma localizeLoopTr_all (env : Env) (stores : List TemporaryDirectory) :
    ∀ (ds : List String) (i : Nat), ∀ e ∈ localizeLoopTr env stores ds i,
      isLocalizeEv e = true := by
  intro ds
  induction ds with
  | nil => intro i e he; cases he
  | cons d tl ih =>
    intro i e he
    unfold localizeLoopTr at he
    cases hg : stores.get? i with
    | none => rw [hg] at he; cases he
    | some st =>
      rw [hg] at he
      cases hl : env.localizeErr d with
      | some e2 =>
        rw [hl] at he
        have he2 : e ∈ [Event.localize d i] := he
        simp at he2
        subst he2
        rfl
      | none =>
        rw [hl] at he
        have he2 : e ∈ Event.localize d i :: localizeLoopTr env stores tl (i + 1) := he
        rcases List.mem_cons.mp he2 with rfl | he3
        · rfl
        · exact ih (i + 1) e he3

lemma readLoopTr_all (env : Env) :
    ∀ (fs : List (String × Bytes)), ∀ e ∈ readLoopTr env fs, isReadEv e = true := by
  intro fs
  induction fs with
  | nil => intro e he; cases he
  | cons f tl ih =>
    intro e he
    obtain ⟨name, content⟩ := f
    unfold readLoopTr at he
    cases hr : env.readErr name with
    | some e2 =>
      rw [hr] at he
      have he2 : e ∈ [Event.readFile name] := he
      simp at he2
      subst he2
      rfl
    | none =>
      rw [hr] at he
      have he2 : e ∈ Event.readFile name :: readLoopTr env tl := he
      rcases List.mem_cons.mp he2 with rfl | he3
      · rfl
      · exact ih e he3

lemma mem_preTrace {n : Nat} {e : Event} (h : e ∈ preTrace n) :
    e = .getFiles ∨ e = .getSubdirs ∨ ∃ i, e = .allocStore i := by
  unfold preTrace at h
  rcases List.mem_append.mp h with h2 | h2
  · rcases List.mem_cons.mp h2 with rfl | h3
    · exact .inl rfl
    · simp at h3
      subst h3
      exact .inr (.inl rfl)
  · obtain ⟨i, _, rfl⟩ := List.mem_map.mp h2
    exact .inr (.inr ⟨i, rfl⟩)

lemma mem_releaseEvents {n : Nat} {e : Event} (h : e ∈ releaseEvents n) :
    ∃ i, e = .releaseStore i := by
  obtain ⟨i, _, rfl⟩ := List.mem_map.mp h
  exact ⟨i, rfl⟩

lemma preTrace_no_release {n : Nat} : ∀ e ∈ preTrace n, isRelease e = false := by
  intro e he
  rcases mem_preTrace he with rfl | rfl | ⟨i, rfl⟩ <;> rfl

lemma preTrace_no_localize {n : Nat} : ∀ e ∈ preTrace n, isLocalizeEv e = false := by
  intro e he
  rcases mem_preTrace he with rfl | rfl | ⟨i, rfl⟩ <;> rfl

lemma preTrace_no_init {n : Nat} : Event.backendInit ∉ preTrace n := by
  intro h
  rcases mem_preTrace h with h2 | h2 | ⟨i, h2⟩ <;> cases h2

lemma preTrace_no_cec {n : Nat} : Event.createExecCtxs ∉ preTrace n := by
  intro h
  rcases mem_preTrace h with h2 | h2 | ⟨i, h2⟩ <;> cases h2

lemma releaseEvents_all_release {n : Nat} : ∀ e ∈ releaseEvents n, isRelease e = true := by
  intro e he
  obtain ⟨i, rfl⟩ := mem_releaseEvents he
  rfl

lemma releaseEvents_no_alloc {n : Nat} : ∀ e ∈ releaseEvents n, isAlloc e = false := by
  intro e he
  obtain ⟨i, rfl⟩ := mem_releaseEvents he
  rfl

lemma releaseEvents_no_init {n : Nat} : Event.backendInit ∉ releaseEvents n := by
  intro h
  obtain ⟨i, h2⟩ := mem_releaseEvents h
  cases h2

lemma releaseEvents_no_cec {n : Nat} : Event.createExecCtxs ∉ releaseEvents n := by
  intro h
  obtain ⟨i, h2⟩ := mem_releaseEvents h
  cases h2

lemma localize_no_release {e : Event} (h : isLocalizeEv e = true) : isRelease e = false := by
  cases e <;> first | rfl | cases h

lemma localize_no_alloc {e : Event} (h : isLocalizeEv e = true) : isAlloc e = false := by
  cases e <;> first | rfl | cases h

lemma read_no_release {e : Event} (h : isReadEv e = true) : isRelease e = false := by
  cases e <;> first | rfl | cases h

lemma read_no_alloc {e : Event} (h : isReadEv e = true) : isAlloc e = false := by
  cases e <;> first | rfl | cases h

lemma localize_ne_init {e : Event} (h : isLocalizeEv e = true) : e ≠ Event.backendInit := by
  intro hc
  subst hc
  cases h

lemma localize_ne_cec {e : Event} (h : isLocalizeEv e = true) : e ≠ Event.createExecCtxs := by
  intro hc
  subst hc
  cases h

lemma read_ne_init {e : Event} (h : isReadEv e = true) : e ≠ Event.backendInit := by
  intro hc
  subst hc
  cases h

lemma read_ne_cec {e : Event} (h : isReadEv e = true) : e ≠ Event.createExecCtxs := by
  intro hc
  subst hc
  cases h

lemma all_isRelease_of {b : List Event} (hb : ∀ e ∈ b, isRelease e = true) :
    b.all isRelease = true :=
  List.all_eq_true.mpr hb

lemma releasesSuffix_all {b : List Event} (hb : ∀ e ∈ b, isRelease e = true) :
    releasesSuffix b = true := by
  induction b with
  | nil => rfl
  | cons e tl ih =>
    unfold releasesSuffix
    rw [hb e (List.mem_cons_self _ _), if_pos rfl]
    exact all_isRelease_of (fun x hx => hb x (List.mem_cons_of_mem _ hx))

lemma releasesSuffix_append {a b : List Event}
    (ha : ∀ e ∈ a, isRelease e = false) (hb : ∀ e ∈ b, isRelease e = true) :
    releasesSuffix (a ++ b) = true := by
  induction a with
  | nil => exact releasesSuffix_all hb
  | cons e tl ih =>
    rw [List.cons_append]
    unfold releasesSuffix
    rw [ha e (List.mem_cons_self _ _)]
    simp only [if_neg (by simp : ¬ (false = true))]
    exact ih (fun x hx => ha x (List.mem_cons_of_mem _ hx))

lemma contains_eq_false_of_not_mem {t : Event} {l : List Event} (h : t ∉ l) :
    l.contains t = false := by
  induction l with
  | nil => rfl
  | cons e tl ih =>
    rw [List.mem_cons, not_or] at h
    rw [List.contains_cons]
    have he : (t == e) = false := by
      simp only [beq_eq_false_iff_ne, ne_eq]
      exact h.1
    rw [he, ih h.2]
    rfl

lemma noReleaseBefore_all_release {t : Event} {b : List Event}
    (hb : ∀ e ∈ b, isRelease e = true) (ht : t ∉ b) :
    noReleaseBefore t b = true := by
  induction b with
  | nil => rfl
  | cons e tl ih =>
    rw [List.mem_cons, not_or] at ht
    unfold noReleaseBefore
    cases hbeq : (e == t) with
    | true => simp
    | false =>
      rw [hb e (List.mem_cons_self _ _)]
      simp only [hbeq, if_neg (by simp : ¬ (false = true)), if_pos rfl]
      rw [contains_eq_false_of_not_mem ht.2,
        ih (fun x hx => hb x (List.mem_cons_of_mem _ hx)) ht.2]
      rfl

lemma noReleaseBefore_append {t : Event} {a b : List Event}
    (ha : ∀ e ∈ a, isRelease e = false) (hb : ∀ e ∈ b, isRelease e = true)
    (ht : t ∉ b) : noReleaseBefore t (a ++ b) = true := by
  induction a with
  | nil => exact noReleaseBefore_all_release hb ht
  | cons e tl ih =>
    rw [List.cons_append]
    unfold noReleaseBefore
    cases hbeq : (e == t) with
    | true => simp
    | false =>
      rw [ha e (List.mem_cons_self _ _)]
      simp only [hbeq, if_neg (by simp : ¬ (false = true))]
      exact ih (fun x hx => ha x (List.mem_cons_of_mem _ hx))

lemma allocsBeforeLocalizes_no_alloc {b : List Event}
    (hb : ∀ e ∈ b, isAlloc e = false) : allocsBeforeLocalizes b = true := by
  induction b with
  | nil => rfl
  | cons e tl ih =>
    unfold allocsBeforeLocalizes
    have htl : tl.any isAlloc = false :=
      List.any_eq_false.mpr (fun x hx h2 => by
        rw [hb x (List.mem_cons_of_mem _ hx)] at h2
        cases h2)
    cases hl : isLocalizeEv e with
    | true =>
      rw [if_pos rfl, htl, ih (fun x hx => hb x (List.mem_cons_of_mem _ hx))]
      rfl
    | false =>
      rw [if_neg (by simp : ¬ (false = true))]
      exact ih (fun x hx => hb x (List.mem_cons_of_mem _ hx))

lemma allocsBeforeLocalizes_append {a b : List Event}
    (ha : ∀ e ∈ a, isLocalizeEv e = false) (hb : ∀ e ∈ b, isAlloc e = false) :
    allocsBeforeLocalizes (a ++ b) = true := by
  induction a with
  | nil => exact allocsBeforeLocalizes_no_alloc hb
  | cons e tl ih =>
    rw [List.cons_append]
    unfold allocsBeforeLocalizes
    rw [ha e (List.mem_cons_self _ _)]
    simp only [if_neg (by simp : ¬ (false = true))]
    exact ih (fun x hx => ha x (List.mem_cons_of_mem _ hx))

lemma filterMap_none_of {f : Event → Option Nat} :
    ∀ {l : List Event}, (∀ e ∈ l, f e = none) → l.filterMap f = [] := by
  intro l
  induction l with
  | nil => intro _; rfl
  | cons e tl ih =>
    intro h
    rw [List.filterMap_cons, h e (List.mem_cons_self _ _)]
    exact ih (fun x hx => h x (List.mem_cons_of_mem _ hx))

lemma filterMap_allocIdx_allocs : ∀ ns : List Nat,
    (ns.map Event.allocStore).filterMap allocIdx = ns := by
  intro ns
  induction ns with
  | nil => rfl
  | cons i tl ih => simp [List.filterMap_cons, allocIdx, ih]

lemma filterMap_relIdx_rels : ∀ ns : List Nat,
    (ns.map Event.releaseStore).filterMap relIdx = ns := by
  intro ns
  induction ns with
  | nil => rfl
  | cons i tl ih => simp [List.filterMap_cons, relIdx, ih]

lemma preTrace_filterMap_allocIdx {n : Nat} :
    (preTrace n).filterMap allocIdx = List.range n := by
  unfold preTrace
  rw [List.filterMap_append, filterMap_allocIdx_allocs]
  rfl

lemma preTrace_filterMap_relIdx {n : Nat} :
    (preTrace n).filterMap relIdx = [] := by
  refine filterMap_none_of ?_
  intro e he
  rcases mem_preTrace he with rfl | rfl | ⟨i, rfl⟩ <;> rfl

lemma releaseEvents_filterMap_relIdx {n : Nat} :
    (releaseEvents n).filterMap relIdx = List.range n := by
  unfold releaseEvents
  exact filterMap_relIdx_rels _

lemma releaseEvents_filterMap_allocIdx {n : Nat} :
    (releaseEvents n).filterMap allocIdx = [] := by
  refine filterMap_none_of ?_
  intro e he
  obtain ⟨i, rfl⟩ := mem_releaseEvents he
  rfl

lemma localize_no_allocIdx {e : Event} (h : isLocalizeEv e = true) : allocIdx e = none := by
  cases e <;> first | rfl | cases h

lemma localize_no_relIdx {e : Event} (h : isLocalizeEv e = true) : relIdx e = none := by
  cases e <;> first | rfl | cases h

lemma read_no_allocIdx {e : Event} (h : isReadEv e = true) : allocIdx e = none := by
  cases e <;> first | rfl | cases h

lemma read_no_relIdx {e : Event} (h : isReadEv e = true) : relIdx e = none := by
  cases e <;> first | rfl | cases h

/-! ### Case equations for CreateBackendRun -/

lemma runEq_filesErr {env : Env} {e : String} (dir : ModelDir) (path : String)
    (cfg : ModelConfig) (mcc : Nat) (h : env.getFilesErr = some e) :
    CreateBackendRun env dir path cfg mcc =
      ⟨.err e, none, [], [Event.getFiles]⟩ := by
  unfold CreateBackendRun
  rw [h]

lemma runEq_subdirsErr {env : Env} {e : String} (dir : ModelDir) (path : String)
    (cfg : ModelConfig) (mcc : Nat) (h1 : env.getFilesErr = none)
    (h2 : env.getSubdirsErr = some e) :
    CreateBackendRun env dir path cfg mcc =
      ⟨.err e, none, [], [Event.getFiles, Event.getSubdirs]⟩ := by
  unfold CreateBackendRun
  rw [h1, h2]

lemma runEq_oob {env : Env} (dir : ModelDir) (path : String)
    (cfg : ModelConfig) (mcc : Nat) (h1 : env.getFilesErr = none)
    (h2 : env.getSubdirsErr = none) (h3 : subdirResolve env dir = .oob) :
    CreateBackendRun env dir path cfg mcc =
      ⟨.undefinedBehavior, none, [],
        preTrace (filteredFiles dir).length ++ subdirTrace env dir⟩ := by
  unfold CreateBackendRun
  simp only [h1, h2, h3]

lemma runEq_locErr {env : Env} {e : String} (dir : ModelDir) (path : String)
    (cfg : ModelConfig) (mcc : Nat) (h1 : env.getFilesErr = none)
    (h2 : env.getSubdirsErr = none) (h3 : subdirResolve env dir = .err e) :
    CreateBackendRun env dir path cfg mcc =
      ⟨.err e, none, [],
        preTrace (filteredFiles dir).length ++ subdirTrace env dir ++
          releaseEvents (filteredFiles dir).length⟩ := by
  unfold CreateBackendRun
  simp only [h1, h2, h3]

lemma runEq_readErr {env : Env} {e : String} {m1 : List (String × ArtifactEntry)}
    (dir : ModelDir) (path : String) (cfg : ModelConfig) (mcc : Nat)
    (h1 : env.getFilesErr = none) (h2 : env.getSubdirsErr = none)
    (h3 : subdirResolve env dir = .ok m1) (h4 : fileResolve env dir m1 = .error e) :
    CreateBackendRun env dir path cfg mcc =
      ⟨.err e, none, m1,
        preTrace (filteredFiles dir).length ++ subdirTrace env dir ++
          fileTrace env dir ++ releaseEvents (filteredFiles dir).length⟩ := by
  unfold CreateBackendRun
  simp only [h1, h2, h3, h4]

lemma runEq_initErr {env : Env} {e : String} {m1 m2 : List (String × ArtifactEntry)}
    (dir : ModelDir) (path : String) (cfg : ModelConfig) (mcc : Nat)
    (h1 : env.getFilesErr = none) (h2 : env.getSubdirsErr = none)
    (h3 : subdirResolve env dir = .ok m1) (h4 : fileResolve env dir m1 = .ok m2)
    (h5 : env.initErr = some e) :
    CreateBackendRun env dir path cfg mcc =
      ⟨.err e, none, m2,
        preTrace (filteredFiles dir).length ++ subdirTrace env dir ++
          fileTrace env dir ++ [Event.backendInit] ++
          releaseEvents (filteredFiles dir).length⟩ := by
  unfold CreateBackendRun
  simp only [h1, h2, h3, h4, h5]

lemma runEq_cecErr {env : Env} {e : String} {m1 m2 : List (String × ArtifactEntry)}
    (dir : ModelDir) (path : String) (cfg : ModelConfig) (mcc : Nat)
    (h1 : env.getFilesErr = none) (h2 : env.getSubdirsErr = none)
    (h3 : subdirResolve env dir = .ok m1) (h4 : fileResolve env dir m1 = .ok m2)
    (h5 : env.initErr = none) (h6 : env.cecErr = some e) :
    CreateBackendRun env dir path cfg mcc =
      ⟨.err e, none, m2,
        preTrace (filteredFiles dir).length ++ subdirTrace env dir ++
          fileTrace env dir ++ [Event.backendInit, Event.createExecCtxs] ++
          releaseEvents (filteredFiles dir).length⟩ := by
  unfold CreateBackendRun
  simp only [h1, h2, h3, h4, h5, h6]

lemma runEq_ok {env : Env} {m1 m2 : List (String × ArtifactEntry)}
    (dir : ModelDir) (path : String) (cfg : ModelConfig) (mcc : Nat)
    (h1 : env.getFilesErr = none) (h2 : env.getSubdirsErr = none)
    (h3 : subdirResolve env dir = .ok m1) (h4 : fileResolve env dir m1 = .ok m2)
    (h5 : env.initErr = none) (h6 : env.cecErr = none) :
    CreateBackendRun env dir path cfg mcc =
      ⟨.ok { min_compute_capability := mcc, path := path, model_config := cfg,
             platform := kOnnxRuntimeOnnxPlatform, models := m2 },
        some { min_compute_capability := mcc, path := path, model_config := cfg,
               platform := kOnnxRuntimeOnnxPlatform, models := m2 },
        m2,
        preTrace (filteredFiles dir).length ++ subdirTrace env dir ++
          fileTrace env dir ++ [Event.backendInit, Event.createExecCtxs] ++
          releaseEvents (filteredFiles dir).length⟩ := by
  unfold CreateBackendRun
  simp only [h1, h2, h3, h4, h5, h6]

/-! ### Derived facts about whole runs -/

lemma mem_filteredSubdirs_not_hidden {dir : ModelDir} {k : String}
    (h : k ∈ filteredSubdirs dir) : isHidden k = false := by
  unfold filteredSubdirs at h
  have := (List.mem_filter.mp h).2
  simpa using this

lemma mem_filteredFiles_keys_not_hidden {dir : ModelDir} {k : String}
    (h : k ∈ (filteredFiles dir).map Prod.fst) : isHidden k = false := by
  obtain ⟨p, hp, rfl⟩ := List.mem_map.mp h
  unfold filteredFiles at hp
  have := (List.mem_filter.mp hp).2
  simpa using this

/-- Every key of the `models` map a run produces (even a partial map on
an error path) comes from the filesystem scan: it is a non-hidden
subdirectory name or a non-hidden file name. -/
lemma run_models_keys (env : Env) (dir : ModelDir) (path : String)
    (cfg : ModelConfig) (mcc : Nat) :
    ∀ k ∈ (CreateBackendRun env dir path cfg mcc).models.map Prod.fst,
      k ∈ filteredSubdirs dir ∨ k ∈ (filteredFiles dir).map Prod.fst := by
  intro k hk
  cases hgf : env.getFilesErr with
  | some e => rw [runEq_filesErr dir path cfg mcc hgf] at hk; cases hk
  | none =>
  cases hgs : env.getSubdirsErr with
  | some e => rw [runEq_subdirsErr dir path cfg mcc hgf hgs] at hk; cases hk
  | none =>
  cases hres : subdirResolve env dir with
  | oob => rw [runEq_oob dir path cfg mcc hgf hgs hres] at hk; cases hk
  | err e => rw [runEq_locErr dir path cfg mcc hgf hgs hres] at hk; cases hk
  | ok m1 =>
  have hm1 : ∀ k2, k2 ∈ m1.map Prod.fst → k2 ∈ filteredSubdirs dir := by
    intro k2 hk2
    rcases localizeLoopRes_keys env (localOnnx env dir) (filteredSubdirs dir) 0 [] m1
      hres k2 hk2 with h | h
    · cases h
    · exact h
  cases hfr : fileResolve env dir m1 with
  | error e =>
    rw [runEq_readErr dir path cfg mcc hgf hgs hres hfr] at hk
    exact .inl (hm1 k hk)
  | ok m2 =>
  have hm2 : k ∈ m2.map Prod.fst →
      k ∈ filteredSubdirs dir ∨ k ∈ (filteredFiles dir).map Prod.fst := by
    intro hk2
    rcases readLoopRes_keys env (filteredFiles dir) m1 m2 hfr k hk2 with h | h
    · exact .inl (hm1 k h)
    · exact .inr h
  cases hie : env.initErr with
  | some e =>
    rw [runEq_initErr dir path cfg mcc hgf hgs hres hfr hie] at hk
    exact hm2 hk
  | none =>
  cases hce : env.cecErr with
  | some e =>
    rw [runEq_cecErr dir path cfg mcc hgf hgs hres hfr hie hce] at hk
    exact hm2 hk
  | none =>
    rw [runEq_ok dir path cfg mcc hgf hgs hres hfr hie hce] at hk
    exact hm2 hk

/-- When a backend is assigned to the output parameter, its `models` map
is the map the run resolved. -/
lemma run_backendOut_models (env : Env) (dir : ModelDir) (path : String)
    (cfg : ModelConfig) (mcc : Nat) :
    ∀ b, (CreateBackendRun env dir path cfg mcc).backendOut = some b →
      b.models = (CreateBackendRun env dir path cfg mcc).models := by
  intro b hb
  cases hgf : env.getFilesErr with
  | some e => rw [runEq_filesErr dir path cfg mcc hgf] at hb; cases hb
  | none =>
  cases hgs : env.getSubdirsErr with
  | some e => rw [runEq_subdirsErr dir path cfg mcc hgf hgs] at hb; cases hb
  | none =>
  cases hres : subdirResolve env dir with
  | oob => rw [runEq_oob dir path cfg mcc hgf hgs hres] at hb; cases hb
  | err e => rw [runEq_locErr dir path cfg mcc hgf hgs hres] at hb; cases hb
  | ok m1 =>
  cases hfr : fileResolve env dir m1 with
  | error e => rw [runEq_readErr dir path cfg mcc hgf hgs hres hfr] at hb; cases hb
  | ok m2 =>
  cases hie : env.initErr with
  | some e => rw [runEq_initErr dir path cfg mcc hgf hgs hres hfr hie] at hb; cases hb
  | none =>
  cases hce : env.cecErr with
  | some e => rw [runEq_cecErr dir path cfg mcc hgf hgs hres hfr hie hce] at hb; cases hb
  | none =>
    rw [runEq_ok dir path cfg mcc hgf hgs hres hfr hie hce] at hb ⊢
    cases hb
    rfl

/-! ### Witness fixtures -/

/-- A run environment in which every external call succeeds. -/
def envAllOk : Env :=
  { getFilesErr := none, getSubdirsErr := none,
    localizeErr := fun _ => none, readErr := fun _ => none,
    initErr := none, cecErr := none, tmpPath := fun _ => "/tmp/folder0" }

/-- Ten bytes of binary data including null bytes, a newline and a
carriage return. -/
def demoBytes : Bytes := [77, 79, 0, 68, 255, 10, 13, 0, 9, 76]

/-- A model directory holding one non-hidden binary file. -/
def demoDir : ModelDir := ⟨[("model.bin", demoBytes)], []⟩

/-- A model directory with hidden and non-hidden files and
subdirectories. -/
def mixedDir : ModelDir :=
  ⟨[(".DS_Store", [1]), ("model.bin", [77, 0])], [".git", "weights"]⟩

/-! ### Claim C4 -/

/-- C4: for every model directory, no hidden entry (file or subdirectory
whose name begins with the platform's hidden-entry marker) ever appears
as a key in the ArtifactMap produced by `CreateBackend` — neither in the
resolved `models` map nor in the map held by a returned backend. -/
theorem c4_no_hidden_keys (env : Env) (dir : ModelDir) (path : String)
    (cfg : ModelConfig) (mcc : Nat) (k : String) (hk : isHidden k = true) :
    lookupEntry (CreateBackendRun env dir path cfg mcc).models k = none ∧
    Option.all (fun b => lookupEntry b.models k == none)
      (CreateBackendRun env dir path cfg mcc).backendOut = true := by
  have hlook : lookupEntry (CreateBackendRun env dir path cfg mcc).models k = none := by
    apply lookupEntry_eq_none
    intro p hp hpk
    have hmem : p.1 ∈ (CreateBackendRun env dir path cfg mcc).models.map Prod.fst :=
      List.mem_map.mpr ⟨p, hp, rfl⟩
    have : isHidden p.1 = false := by
      rcases run_models_keys env dir path cfg mcc p.1 hmem with h | h
      · exact mem_filteredSubdirs_not_hidden h
      · exact mem_filteredFiles_keys_not_hidden h
    rw [hpk, hk] at this
    cases this
  refine ⟨hlook, ?_⟩
  cases hb : (CreateBackendRun env dir path cfg mcc).backendOut with
  | none => rfl
  | some b =>
    have := run_backendOut_models env dir path cfg mcc b hb
    simp only [Option.all_some]
    rw [this, hlook]
    rfl

/-- Witness for C4: in a directory containing the hidden file
`.DS_Store`, the hidden subdirectory `.git`, and non-hidden entries, the
run's ArtifactMap has no entry under either hidden name. -/
theorem c4_no_hidden_keys_witness :
    isHidden ".DS_Store" = true ∧
    (lookupEntry (CreateBackendRun envAllOk mixedDir "model" "cfg" 0).models ".DS_Store" = none ∧
     Option.all (fun b => lookupEntry b.models ".DS_Store" == none)
       (CreateBackendRun envAllOk mixedDir "model" "cfg" 0).backendOut = true) :=
  ⟨by decide, c4_no_hidden_keys envAllOk mixedDir "model" "cfg" 0 ".DS_Store" (by decide)⟩

/-! ### Pointwise facts about trace components -/

lemma subdirTrace_all_localize (env : Env) (dir : ModelDir) :
    ∀ e ∈ subdirTrace env dir, isLocalizeEv e = true :=
  fun e he => localizeLoopTr_all env (localOnnx env dir) (filteredSubdirs dir) 0 e he

lemma fileTrace_all_read (env : Env) (dir : ModelDir) :
    ∀ e ∈ fileTrace env dir, isReadEv e = true :=
  fun e he => readLoopTr_all env (filteredFiles dir) e he

lemma read_no_localize {e : Event} (h : isReadEv e = true) : isLocalizeEv e = false := by
  cases e <;> first | rfl | cases h

lemma append_all_false {p : Event → Bool} {a b : List Event}
    (ha : ∀ e ∈ a, p e = false) (hb : ∀ e ∈ b, p e = false) :
    ∀ e ∈ a ++ b, p e = false := by
  intro e he
  rcases List.mem_append.mp he with h | h
  · exact ha e h
  · exact hb e h

lemma append_all_none {f : Event → Option Nat} {a b : List Event}
    (ha : ∀ e ∈ a, f e = none) (hb : ∀ e ∈ b, f e = none) :
    ∀ e ∈ a ++ b, f e = none := by
  intro e he
  rcases List.mem_append.mp he with h | h
  · exact ha e h
  · exact hb e h

lemma mem_initMid {e : Event} (h : e ∈ [Event.backendInit]) :
    e = Event.backendInit := by simpa using h

lemma mem_initCecMid {e : Event} (h : e ∈ [Event.backendInit, Event.createExecCtxs]) :
    e = Event.backendInit ∨ e = Event.createExecCtxs := by simpa using h

lemma subdirTrace_no_alloc (env : Env) (dir : ModelDir) :
    ∀ e ∈ subdirTrace env dir, isAlloc e = false :=
  fun e he => localize_no_alloc (subdirTrace_all_localize env dir e he)

lemma subdirTrace_no_release (env : Env) (dir : ModelDir) :
    ∀ e ∈ subdirTrace env dir, isRelease e = false :=
  fun e he => localize_no_release (subdirTrace_all_localize env dir e he)

lemma subdirTrace_allocIdx_none (env : Env) (dir : ModelDir) :
    ∀ e ∈ subdirTrace env dir, allocIdx e = none :=
  fun e he => localize_no_allocIdx (subdirTrace_all_localize env dir e he)

lemma subdirTrace_relIdx_none (env : Env) (dir : ModelDir) :
    ∀ e ∈ subdirTrace env dir, relIdx e = none :=
  fun e he => localize_no_relIdx (subdirTrace_all_localize env dir e he)

lemma fileTrace_no_alloc (env : Env) (dir : ModelDir) :
    ∀ e ∈ fileTrace env dir, isAlloc e = false :=
  fun e he => read_no_alloc (fileTrace_all_read env dir e he)

lemma fileTrace_no_release (env : Env) (dir : ModelDir) :
    ∀ e ∈ fileTrace env dir, isRelease e = false :=
  fun e he => read_no_release (fileTrace_all_read env dir e he)

lemma fileTrace_no_localize (env : Env) (dir : ModelDir) :
    ∀ e ∈ fileTrace env dir, isLocalizeEv e = false :=
  fun e he => read_no_localize (fileTrace_all_read env dir e he)

lemma fileTrace_allocIdx_none (env : Env) (dir : ModelDir) :
    ∀ e ∈ fileTrace env dir, allocIdx e = none :=
  fun e he => read_no_allocIdx (fileTrace_all_read env dir e he)

lemma fileTrace_relIdx_none (env : Env) (dir : ModelDir) :
    ∀ e ∈ fileTrace env dir, relIdx e = none :=
  fun e he => read_no_relIdx (fileTrace_all_read env dir e he)

lemma initMid_no_alloc : ∀ e ∈ [Event.backendInit], isAlloc e = false := by
  intro e he
  rw [mem_initMid he]
  rfl

lemma initMid_no_release : ∀ e ∈ [Event.backendInit], isRelease e = false := by
  intro e he
  rw [mem_initMid he]
  rfl

lemma initMid_no_localize : ∀ e ∈ [Event.backendInit], isLocalizeEv e = false := by
  intro e he
  rw [mem_initMid he]
  rfl

lemma initMid_allocIdx_none : ∀ e ∈ [Event.backendInit], allocIdx e = none := by
  intro e he
  rw [mem_initMid he]
  rfl

lemma initMid_relIdx_none : ∀ e ∈ [Event.backendInit], relIdx e = none := by
  intro e he
  rw [mem_initMid he]
  rfl

lemma initCecMid_no_alloc : ∀ e ∈ [Event.backendInit, Event.createExecCtxs],
    isAlloc e = false := by
  intro e he
  rcases mem_initCecMid he with rfl | rfl <;> rfl

lemma initCecMid_no_release : ∀ e ∈ [Event.backendInit, Event.createExecCtxs],
    isRelease e = false := by
  intro e he
  rcases mem_initCecMid he with rfl | rfl <;> rfl

lemma initCecMid_no_localize : ∀ e ∈ [Event.backendInit, Event.createExecCtxs],
    isLocalizeEv e = false := by
  intro e he
  rcases mem_initCecMid he with rfl | rfl <;> rfl

lemma initCecMid_allocIdx_none : ∀ e ∈ [Event.backendInit, Event.createExecCtxs],
    allocIdx e = none := by
  intro e he
  rcases mem_initCecMid he with rfl | rfl <;> rfl

lemma initCecMid_relIdx_none : ∀ e ∈ [Event.backendInit, Event.createExecCtxs],
    relIdx e = none := by
  intro e he
  rcases mem_initCecMid he with rfl | rfl <;> rfl

lemma releaseEvents_allocIdx_none {n : Nat} :
    ∀ e ∈ releaseEvents n, allocIdx e = none := by
  intro e he
  obtain ⟨i, rfl⟩ := mem_releaseEvents he
  rfl

lemma releaseEvents_no_localize {n : Nat} :
    ∀ e ∈ releaseEvents n, isLocalizeEv e = false := by
  intro e he
  obtain ⟨i, rfl⟩ := mem_releaseEvents he
  rfl

lemma preTrace_allocs_first {n : Nat} {rest : List Event}
    (hno : ∀ e ∈ rest, allocIdx e = none) :
    (preTrace n ++ rest).filterMap allocIdx = List.range n := by
  rw [List.filterMap_append, preTrace_filterMap_allocIdx, filterMap_none_of hno,
    List.append_nil]

lemma preTrace_abl {n : Nat} {rest : List Event}
    (hno : ∀ e ∈ rest, isAlloc e = false) :
    allocsBeforeLocalizes (preTrace n ++ rest) = true :=
  allocsBeforeLocalizes_append preTrace_no_localize hno

lemma preTrace_all_not_localize {n : Nat} {rest : List Event}
    (hno : ∀ e ∈ rest, isLocalizeEv e = false) :
    (preTrace n ++ rest).all (fun e => !isLocalizeEv e) = true := by
  rw [List.all_eq_true]
  intro e he
  rcases List.mem_append.mp he with h | h
  · rw [preTrace_no_localize e h]; rfl
  · rw [hno e h]; rfl

/-! ### Claim C1 -/

/-- C1: the claim states that `CreateBackend` localizes each
subdirectory into a freshly allocated scoped store of its own, the store
used for the i-th subdirectory being a valid element of the collection
of stores allocated by that call, for every combination of file count
and subdirectory count — including directories with more subdirectories
than regular files.  The code sizes the `local_onnx` vector by
`onnx_files.size()` but indexes it once per subdirectory, so a directory
with one subdirectory and no regular files makes `local_onnx[0]` an
out-of-bounds access into an empty vector: the run hits undefined
behavior instead of using a valid store. -/
theorem c1_subdir_store_oob :
    (localOnnx envAllOk ⟨[], ["weights"]⟩).length = 0 ∧
    filteredSubdirs ⟨[], ["weights"]⟩ = ["weights"] ∧
    (CreateBackendRun envAllOk ⟨[], ["weights"]⟩ "model" "cfg" 0).result =
      CBResult.undefinedBehavior := by
  refine ⟨rfl, by decide, ?_⟩
  decide

/-! ### Claim C8 -/

/-- C8: `CreateBackend` eagerly allocates exactly one
temporary-directory store per non-hidden regular file found (not per
subdirectory), before any localization begins; a directory with no
subdirectories still allocates one store per file and performs no
localization with them. -/
theorem c8_store_per_file (env : Env) (dir : ModelDir) (path : String)
    (cfg : ModelConfig) (mcc : Nat)
    (h1 : env.getFilesErr = none) (h2 : env.getSubdirsErr = none) :
    (CreateBackendRun env dir path cfg mcc).trace.filterMap allocIdx =
      List.range (filteredFiles dir).length ∧
    allocsBeforeLocalizes (CreateBackendRun env dir path cfg mcc).trace = true ∧
    (filteredSubdirs dir = [] →
      (CreateBackendRun env dir path cfg mcc).trace.all (fun e => !isLocalizeEv e) = true) := by
  have hsub0 : filteredSubdirs dir = [] → subdirTrace env dir = [] := by
    intro h
    unfold subdirTrace
    rw [h]
    rfl
  cases hres : subdirResolve env dir with
  | oob =>
    rw [runEq_oob dir path cfg mcc h1 h2 hres]
    simp only [List.append_assoc]
    refine ⟨preTrace_allocs_first (subdirTrace_allocIdx_none env dir),
      preTrace_abl (subdirTrace_no_alloc env dir), ?_⟩
    intro hsd
    refine preTrace_all_not_localize ?_
    rw [hsub0 hsd]
    intro e he
    cases he
  | err e =>
    rw [runEq_locErr dir path cfg mcc h1 h2 hres]
    simp only [List.append_assoc]
    refine ⟨preTrace_allocs_first
        (append_all_none (subdirTrace_allocIdx_none env dir) releaseEvents_allocIdx_none),
      preTrace_abl
        (append_all_false (subdirTrace_no_alloc env dir) releaseEvents_no_alloc), ?_⟩
    intro hsd
    refine preTrace_all_not_localize ?_
    rw [hsub0 hsd]
    exact append_all_false (fun e2 he2 => by cases he2) releaseEvents_no_localize
  | ok m1 =>
  cases hfr : fileResolve env dir m1 with
  | error e =>
    rw [runEq_readErr dir path cfg mcc h1 h2 hres hfr]
    simp only [List.append_assoc]
    refine ⟨preTrace_allocs_first
        (append_all_none (subdirTrace_allocIdx_none env dir)
          (append_all_none (fileTrace_allocIdx_none env dir) releaseEvents_allocIdx_none)),
      preTrace_abl
        (append_all_false (subdirTrace_no_alloc env dir)
          (append_all_false (fileTrace_no_alloc env dir) releaseEvents_no_alloc)), ?_⟩
    intro hsd
    refine preTrace_all_not_localize ?_
    rw [hsub0 hsd]
    exact append_all_false (fun e2 he2 => by cases he2)
      (append_all_false (fileTrace_no_localize env dir) releaseEvents_no_localize)
  | ok m2 =>
  cases hie : env.initErr with
  | some e =>
    rw [runEq_initErr dir path cfg mcc h1 h2 hres hfr hie]
    simp only [List.append_assoc]
    refine ⟨preTrace_allocs_first
        (append_all_none (subdirTrace_allocIdx_none env dir)
          (append_all_none (fileTrace_allocIdx_none env dir)
            (append_all_none initMid_allocIdx_none releaseEvents_allocIdx_none))),
      preTrace_abl
        (append_all_false (subdirTrace_no_alloc env dir)
          (append_all_false (fileTrace_no_alloc env dir)
            (append_all_false initMid_no_alloc releaseEvents_no_alloc))), ?_⟩
    intro hsd
    refine preTrace_all_not_localize ?_
    rw [hsub0 hsd]
    exact append_all_false (fun e2 he2 => by cases he2)
      (append_all_false (fileTrace_no_localize env dir)
        (append_all_false initMid_no_localize releaseEvents_no_localize))
  | none =>
  cases hce : env.cecErr with
  | some e =>
    rw [runEq_cecErr dir path cfg mcc h1 h2 hres hfr hie hce]
    simp only [List.append_assoc]
    refine ⟨preTrace_allocs_first
        (append_all_none (subdirTrace_allocIdx_none env dir)
          (append_all_none (fileTrace_allocIdx_none env dir)
            (append_all_none initCecMid_allocIdx_none releaseEvents_allocIdx_none))),
      preTrace_abl
        (append_all_false (subdirTrace_no_alloc env dir)
          (append_all_false (fileTrace_no_alloc env dir)
            (append_all_false initCecMid_no_alloc releaseEvents_no_alloc))), ?_⟩
    intro hsd
    refine preTrace_all_not_localize ?_
    rw [hsub0 hsd]
    exact append_all_false (fun e2 he2 => by cases he2)
      (append_all_false (fileTrace_no_localize env dir)
        (append_all_false initCecMid_no_localize releaseEvents_no_localize))
  | none =>
    rw [runEq_ok dir path cfg mcc h1 h2 hres hfr hie hce]
    simp only [List.append_assoc]
    refine ⟨preTrace_allocs_first
        (append_all_none (subdirTrace_allocIdx_none env dir)
          (append_all_none (fileTrace_allocIdx_none env dir)
            (append_all_none initCecMid_allocIdx_none releaseEvents_allocIdx_none))),
      preTrace_abl
        (append_all_false (subdirTrace_no_alloc env dir)
          (append_all_false (fileTrace_no_alloc env dir)
            (append_all_false initCecMid_no_alloc releaseEvents_no_alloc))), ?_⟩
    intro hsd
    refine preTrace_all_not_localize ?_
    rw [hsub0 hsd]
    exact append_all_false (fun e2 he2 => by cases he2)
      (append_all_false (fileTrace_no_localize env dir)
        (append_all_false initCecMid_no_localize releaseEvents_no_localize))

/-- Witness for C8: a directory with three non-hidden files and no
subdirectory allocates exactly three stores, before any localization,
and no localization event ever occurs. -/
theorem c8_store_per_file_witness :
    (envAllOk.getFilesErr = none ∧ envAllOk.getSubdirsErr = none) ∧
    ((CreateBackendRun envAllOk ⟨[("a.bin", [1]), ("b.bin", [2]), ("c.bin", [3])], []⟩
        "model" "cfg" 0).trace.filterMap allocIdx =
      List.range (filteredFiles ⟨[("a.bin", [1]), ("b.bin", [2]), ("c.bin", [3])], []⟩).length ∧
     allocsBeforeLocalizes (CreateBackendRun envAllOk
        ⟨[("a.bin", [1]), ("b.bin", [2]), ("c.bin", [3])], []⟩ "model" "cfg" 0).trace = true ∧
     (filteredSubdirs ⟨[("a.bin", [1]), ("b.bin", [2]), ("c.bin", [3])], []⟩ = [] →
      (CreateBackendRun envAllOk ⟨[("a.bin", [1]), ("b.bin", [2]), ("c.bin", [3])], []⟩
        "model" "cfg" 0).trace.all (fun e => !isLocalizeEv e) = true)) :=
  ⟨⟨rfl, rfl⟩, c8_store_per_file envAllOk ⟨[("a.bin", [1]), ("b.bin", [2]), ("c.bin", [3])], []⟩
    "model" "cfg" 0 rfl rfl⟩

/-! ### Claim C9 -/

/-- C9: for a model directory containing no non-hidden regular files and
no subdirectories, `CreateBackend` reports no error from the resolution
phase: it builds an empty ArtifactMap, still calls backend `Init` and —
when `Init` succeeds — `CreateExecutionContexts` with that empty map,
and the only possible errors are those of `Init` and
`CreateExecutionContexts`, in that order. -/
theorem c9_empty_dir (env : Env) (path : String) (cfg : ModelConfig) (mcc : Nat)
    (h1 : env.getFilesErr = none) (h2 : env.getSubdirsErr = none) :
    resultErr (CreateBackendRun env ⟨[], []⟩ path cfg mcc).result =
      (env.initErr <|> env.cecErr) ∧
    (CreateBackendRun env ⟨[], []⟩ path cfg mcc).models = [] ∧
    Event.backendInit ∈ (CreateBackendRun env ⟨[], []⟩ path cfg mcc).trace ∧
    (env.initErr = none →
      Event.createExecCtxs ∈ (CreateBackendRun env ⟨[], []⟩ path cfg mcc).trace) ∧
    (env.initErr = none → env.cecErr = none →
      (CreateBackendRun env ⟨[], []⟩ path cfg mcc).result =
        CBResult.ok
          { min_compute_capability := mcc, path := path, model_config := cfg,
            platform := kOnnxRuntimeOnnxPlatform, models := [] }) := by
  have h3 : subdirResolve env ⟨[], []⟩ = .ok [] := rfl
  have h4 : fileResolve env ⟨[], []⟩ [] = .ok [] := rfl
  cases hie : env.initErr with
  | some e =>
    rw [runEq_initErr ⟨[], []⟩ path cfg mcc h1 h2 h3 h4 hie]
    refine ⟨by simp [resultErr], rfl, ?_, ?_, ?_⟩
    · simp
    · intro h; exact Option.noConfusion h
    · intro h; exact Option.noConfusion h
  | none =>
    cases hce : env.cecErr with
    | some e =>
      rw [runEq_cecErr ⟨[], []⟩ path cfg mcc h1 h2 h3 h4 hie hce]
      refine ⟨by simp [resultErr], rfl, by simp, fun _ => by simp, ?_⟩
      intro _ h
      exact Option.noConfusion h
    | none =>
      rw [runEq_ok ⟨[], []⟩ path cfg mcc h1 h2 h3 h4 hie hce]
      exact ⟨by simp [resultErr], rfl, by simp, fun _ => by simp, fun _ _ => rfl⟩

/-- Witness for C9: the empty directory in the all-success environment
resolves to an empty map, runs `Init` and `CreateExecutionContexts`, and
returns a backend with an empty ArtifactMap. -/
theorem c9_empty_dir_witness :
    (envAllOk.getFilesErr = none ∧ envAllOk.getSubdirsErr = none) ∧
    (resultErr (CreateBackendRun envAllOk ⟨[], []⟩ "model" "cfg" 7).result =
       (envAllOk.initErr <|> envAllOk.cecErr) ∧
     (CreateBackendRun envAllOk ⟨[], []⟩ "model" "cfg" 7).models = [] ∧
     Event.backendInit ∈ (CreateBackendRun envAllOk ⟨[], []⟩ "model" "cfg" 7).trace ∧
     (envAllOk.initErr = none →
       Event.createExecCtxs ∈ (CreateBackendRun envAllOk ⟨[], []⟩ "model" "cfg" 7).trace) ∧
     (envAllOk.initErr = none → envAllOk.cecErr = none →
       (CreateBackendRun envAllOk ⟨[], []⟩ "model" "cfg" 7).result =
         CBResult.ok
           { min_compute_capability := 7, path := "model", model_config := "cfg",
             platform := kOnnxRuntimeOnnxPlatform, models := [] })) :=
  ⟨⟨rfl, rfl⟩, c9_empty_dir envAllOk "model" "cfg" 7 rfl rfl⟩

/-! ### Claim C5 -/

lemma firstSome_eq_none {α : Type} {f : α → Option String} :
    ∀ {l : List α}, (∀ a ∈ l, f a = none) → firstSome f l = none := by
  intro l
  induction l with
  | nil => intro _; rfl
  | cons a tl ih =>
    intro h
    unfold firstSome
    rw [h a (List.mem_cons_self _ _)]
    exact ih (fun x hx => h x (List.mem_cons_of_mem _ hx))

lemma not_mem_append {t : Event} {a b : List Event}
    (ha : t ∉ a) (hb : t ∉ b) : t ∉ a ++ b := by
  intro h
  rcases List.mem_append.mp h with h2 | h2
  · exact ha h2
  · exact hb h2

lemma subdirTrace_not_init (env : Env) (dir : ModelDir) :
    Event.backendInit ∉ subdirTrace env dir :=
  fun h => localize_ne_init (subdirTrace_all_localize env dir _ h) rfl

lemma subdirTrace_not_cec (env : Env) (dir : ModelDir) :
    Event.createExecCtxs ∉ subdirTrace env dir :=
  fun h => localize_ne_cec (subdirTrace_all_localize env dir _ h) rfl

lemma fileTrace_not_init (env : Env) (dir : ModelDir) :
    Event.backendInit ∉ fileTrace env dir :=
  fun h => read_ne_init (fileTrace_all_read env dir _ h) rfl

lemma fileTrace_not_cec (env : Env) (dir : ModelDir) :
    Event.createExecCtxs ∉ fileTrace env dir :=
  fun h => read_ne_cec (fileTrace_all_read env dir _ h) rfl

lemma initMid_not_cec : Event.createExecCtxs ∉ [Event.backendInit] := by
  intro h
  cases mem_initMid h

/-- The error-propagation contract of one `CreateBackend` run: the call
returns exactly the first error of the spec's step order, unchanged; the
run never reaches undefined behavior; the output parameter carries the
backend iff the run succeeded; on an enumeration failure the run stops
immediately; after a resolution-phase failure neither backend `Init` nor
`CreateExecutionContexts` runs; after an `Init` failure
`CreateExecutionContexts` does not run. -/
def C5prop (env : Env) (dir : ModelDir) (st : CBState) : Prop :=
  resultErr st.result = firstErrorSpec env dir ∧
  st.result ≠ CBResult.undefinedBehavior ∧
  st.backendOut = resultBackend st.result ∧
  (env.getFilesErr.isSome = true → st.trace = [Event.getFiles]) ∧
  (env.getFilesErr = none → env.getSubdirsErr.isSome = true →
    st.trace = [Event.getFiles, Event.getSubdirs]) ∧
  ((resolutionFirstError env dir).isSome = true →
    Event.backendInit ∉ st.trace ∧ Event.createExecCtxs ∉ st.trace) ∧
  (resolutionFirstError env dir = none → env.initErr.isSome = true →
    Event.createExecCtxs ∉ st.trace)

/-- C5: whenever any step of `CreateBackend` fails, the call returns the
first error encountered unchanged, the remaining steps are not executed,
and the output backend parameter is left unassigned; on success the
constructed backend is returned.  The hypothesis restricts to directory
shapes on which the C++ has defined behavior (at least as many non-hidden
files as subdirectories; see C1 for the out-of-bounds case). -/
theorem c5_first_error (env : Env) (dir : ModelDir) (path : String)
    (cfg : ModelConfig) (mcc : Nat)
    (h : (filteredSubdirs dir).length ≤ (filteredFiles dir).length) :
    C5prop env dir (CreateBackendRun env dir path cfg mcc) := by
  unfold C5prop
  cases hgf : env.getFilesErr with
  | some e =>
    rw [runEq_filesErr dir path cfg mcc hgf]
    have hres : resolutionFirstError env dir = some e := by
      simp [resolutionFirstError, hgf]
    refine ⟨by simp [firstErrorSpec, hres, resultErr], by simp, rfl,
      fun _ => rfl, ?_, ?_, ?_⟩
    · intro h2; cases h2
    · intro _
      constructor
      · intro hm; simp at hm
      · intro hm; simp at hm
    · intro h2
      rw [hres] at h2
      cases h2
  | none =>
  cases hgs : env.getSubdirsErr with
  | some e =>
    rw [runEq_subdirsErr dir path cfg mcc hgf hgs]
    have hres : resolutionFirstError env dir = some e := by
      simp [resolutionFirstError, hgf, hgs]
    refine ⟨by simp [firstErrorSpec, hres, resultErr], by simp, rfl,
      ?_, fun _ _ => rfl, ?_, ?_⟩
    · intro h2; simp at h2
    · intro _
      constructor
      · intro hm; simp at hm
      · intro hm; simp at hm
    · intro h2
      rw [hres] at h2
      cases h2
  | none =>
  cases hsr : subdirResolve env dir with
  | oob =>
    exfalso
    refine localizeLoopRes_ne_oob env (filteredSubdirs dir) 0 [] ?_ hsr
    omega
  | err e =>
    rw [runEq_locErr dir path cfg mcc hgf hgs hsr]
    have hloc : firstSome env.localizeErr (filteredSubdirs dir) = some e :=
      localizeLoopRes_err_inv env (localOnnx env dir) (filteredSubdirs dir) 0 [] e hsr
    have hres : resolutionFirstError env dir = some e := by
      simp [resolutionFirstError, hgf, hgs, hloc]
    refine ⟨by simp [firstErrorSpec, hres, resultErr], by simp, rfl, ?_, ?_, ?_, ?_⟩
    · intro h2; simp at h2
    · intro _ h2; simp at h2
    · intro _
      exact ⟨not_mem_append (not_mem_append preTrace_no_init (subdirTrace_not_init env dir))
          releaseEvents_no_init,
        not_mem_append (not_mem_append preTrace_no_cec (subdirTrace_not_cec env dir))
          releaseEvents_no_cec⟩
    · intro h2
      rw [hres] at h2
      cases h2
  | ok m1 =>
  have hloc : firstSome env.localizeErr (filteredSubdirs dir) = none :=
    firstSome_eq_none (localizeLoopRes_ok_localizeErr_none env (localOnnx env dir)
      (filteredSubdirs dir) 0 [] m1 hsr)
  cases hfr : fileResolve env dir m1 with
  | error e =>
    rw [runEq_readErr dir path cfg mcc hgf hgs hsr hfr]
    have hread : firstSome (fun p => env.readErr p.1) (filteredFiles dir) = some e :=
      readLoopRes_err_inv env (filteredFiles dir) m1 e hfr
    have hres : resolutionFirstError env dir = some e := by
      simp [resolutionFirstError, hgf, hgs, hloc, hread]
    refine ⟨by simp [firstErrorSpec, hres, resultErr], by simp, rfl, ?_, ?_, ?_, ?_⟩
    · intro h2; simp at h2
    · intro _ h2; simp at h2
    · intro _
      exact ⟨not_mem_append (not_mem_append (not_mem_append preTrace_no_init
            (subdirTrace_not_init env dir)) (fileTrace_not_init env dir))
          releaseEvents_no_init,
        not_mem_append (not_mem_append (not_mem_append preTrace_no_cec
            (subdirTrace_not_cec env dir)) (fileTrace_not_cec env dir))
          releaseEvents_no_cec⟩
    · intro h2
      rw [hres] at h2
      cases h2
  | ok m2 =>
  have hread : firstSome (fun p => env.readErr p.1) (filteredFiles dir) = none :=
    firstSome_eq_none (fun p hp =>
      readLoopRes_ok_readErr_none env (filteredFiles dir) m1 m2 hfr p hp)
  have hres : resolutionFirstError env dir = none := by
    simp [resolutionFirstError, hgf, hgs, hloc, hread]
  cases hie : env.initErr with
  | some e =>
    rw [runEq_initErr dir path cfg mcc hgf hgs hsr hfr hie]
    refine ⟨by simp [firstErrorSpec, hres, hie, resultErr], by simp, rfl, ?_, ?_, ?_, ?_⟩
    · intro h2; simp at h2
    · intro _ h2; simp at h2
    · intro h2
      rw [hres] at h2
      cases h2
    · intro _ _
      exact not_mem_append (not_mem_append (not_mem_append (not_mem_append preTrace_no_cec
            (subdirTrace_not_cec env dir)) (fileTrace_not_cec env dir)) initMid_not_cec)
        releaseEvents_no_cec
  | none =>
  cases hce : env.cecErr with
  | some e =>
    rw [runEq_cecErr dir path cfg mcc hgf hgs hsr hfr hie hce]
    refine ⟨by simp [firstErrorSpec, hres, hie, hce, resultErr], by simp, rfl,
      ?_, ?_, ?_, ?_⟩
    · intro h2; simp at h2
    · intro _ h2; simp at h2
    · intro h2
      rw [hres] at h2
      cases h2
    · intro _ h2; simp at h2
  | none =>
    rw [runEq_ok dir path cfg mcc hgf hgs hsr hfr hie hce]
    refine ⟨by simp [firstErrorSpec, hres, hie, hce, resultErr], by simp, rfl,
      ?_, ?_, ?_, ?_⟩
    · intro h2; simp at h2
    · intro _ h2; simp at h2
    · intro h2
      rw [hres] at h2
      cases h2
    · intro _ h2; simp at h2

/-- A run environment in which reading `model.bin` fails and everything
else succeeds. -/
def envReadFail : Env :=
  { getFilesErr := none, getSubdirsErr := none,
    localizeErr := fun _ => none,
    readErr := fun nm => if nm == "model.bin" then some "read failed" else none,
    initErr := none, cecErr := none, tmpPath := fun _ => "/tmp/folder0" }

/-- Witness for C5: with a failing read of `model.bin`, the run returns
exactly that error, assigns no backend, and never reaches `Init` or
`CreateExecutionContexts`. -/
theorem c5_first_error_witness :
    (filteredSubdirs demoDir).length ≤ (filteredFiles demoDir).length ∧
    C5prop envReadFail demoDir (CreateBackendRun envReadFail demoDir "model" "cfg" 0) :=
  ⟨by decide, c5_first_error envReadFail demoDir "model" "cfg" 0 (by decide)⟩

/-! ### Claims C3 and C6 -/

/-- On a fully successful run over a duplicate-free directory listing,
the returned backend's `models` map is exactly the resolved map: one
`Localized` entry per non-hidden subdirectory followed by one `Inline`
entry per non-hidden file. -/
lemma run_ok_models (env : Env) (dir : ModelDir) (path : String)
    (cfg : ModelConfig) (mcc : Nat) (b : OnnxBackend)
    (hok : (CreateBackendRun env dir path cfg mcc).result = .ok b)
    (hns : (filteredSubdirs dir).Nodup)
    (hnf : ((filteredFiles dir).map Prod.fst).Nodup)
    (hdisj : ∀ k ∈ (filteredFiles dir).map Prod.fst, k ∉ filteredSubdirs dir) :
    b.models = resolvedModels env dir := by
  cases hgf : env.getFilesErr with
  | some e => rw [runEq_filesErr dir path cfg mcc hgf] at hok; cases hok
  | none =>
  cases hgs : env.getSubdirsErr with
  | some e => rw [runEq_subdirsErr dir path cfg mcc hgf hgs] at hok; cases hok
  | none =>
  cases hsr : subdirResolve env dir with
  | oob => rw [runEq_oob dir path cfg mcc hgf hgs hsr] at hok; cases hok
  | err e => rw [runEq_locErr dir path cfg mcc hgf hgs hsr] at hok; cases hok
  | ok m1 =>
  cases hfr : fileResolve env dir m1 with
  | error e => rw [runEq_readErr dir path cfg mcc hgf hgs hsr hfr] at hok; cases hok
  | ok m2 =>
  cases hie : env.initErr with
  | some e => rw [runEq_initErr dir path cfg mcc hgf hgs hsr hfr hie] at hok; cases hok
  | none =>
  cases hce : env.cecErr with
  | some e => rw [runEq_cecErr dir path cfg mcc hgf hgs hsr hfr hie hce] at hok; cases hok
  | none =>
    rw [runEq_ok dir path cfg mcc hgf hgs hsr hfr hie hce] at hok
    cases hok
    have hm1 : m1 = subdirEntries env 0 (filteredSubdirs dir) := by
      have := localizeLoopRes_ok_eq env (filteredSubdirs dir) 0 [] m1 hsr hns
        (fun d _ hd => by cases hd)
      simpa using this
    have hm2 : m2 = m1 ++ (filteredFiles dir).map (fun p => (p.1, ArtifactEntry.Inline p.2)) := by
      refine readLoopRes_ok_eq env (filteredFiles dir) m1 m2 hfr hnf ?_
      intro p hp hmem
      rw [hm1, subdirEntries_keys] at hmem
      exact hdisj p.1 (List.mem_map.mpr ⟨p, hp, rfl⟩) hmem
    rw [hm2, hm1]
    rfl

lemma resolvedModels_lookup_file {env : Env} {dir : ModelDir} {name : String}
    {content : Bytes} (hnf : ((filteredFiles dir).map Prod.fst).Nodup)
    (hmem : (name, content) ∈ filteredFiles dir)
    (hnotsub : name ∉ filteredSubdirs dir) :
    lookupEntry (resolvedModels env dir) name = some (ArtifactEntry.Inline content) := by
  unfold lookupEntry resolvedModels
  rw [find?_append_none (find?_subdirEntries_none hnotsub),
    find?_inlinePart hnf hmem]
  rfl

/-- Does an optional map entry hold a `Localized` artifact? -/
def isLocalizedOpt : Option ArtifactEntry → Bool
  | some (ArtifactEntry.Localized _) => true
  | _ => false

lemma resolvedModels_lookup_subdir {env : Env} {dir : ModelDir} {d : String}
    (hd : d ∈ filteredSubdirs dir) :
    isLocalizedOpt (lookupEntry (resolvedModels env dir) d) = true := by
  unfold lookupEntry resolvedModels
  obtain ⟨j, hj⟩ := find?_subdirEntries_mem 0 hd
  rw [find?_append_some hj]
  rfl

/-- C3: for every non-hidden regular file in the model directory, the
ArtifactMap entry keyed by that filename on a successful run is `Inline`
with contents byte-identical to the file on disk (no text-mode
transformation: the stored bytes are the directory entry's bytes). -/
theorem c3_inline_byte_exact (env : Env) (dir : ModelDir) (path : String)
    (cfg : ModelConfig) (mcc : Nat) (b : OnnxBackend)
    (name : String) (content : Bytes)
    (hok : (CreateBackendRun env dir path cfg mcc).result = .ok b)
    (hns : (filteredSubdirs dir).Nodup)
    (hnf : ((filteredFiles dir).map Prod.fst).Nodup)
    (hdisj : ∀ k ∈ (filteredFiles dir).map Prod.fst, k ∉ filteredSubdirs dir)
    (hmem : (name, content) ∈ dir.files) (hhid : isHidden name = false) :
    lookupEntry b.models name = some (ArtifactEntry.Inline content) := by
  have hmem2 : (name, content) ∈ filteredFiles dir := by
    unfold filteredFiles
    exact List.mem_filter.mpr ⟨hmem, by simp [hhid]⟩
  have hkey : name ∈ (filteredFiles dir).map Prod.fst :=
    List.mem_map.mpr ⟨(name, content), hmem2, rfl⟩
  rw [run_ok_models env dir path cfg mcc b hok hns hnf hdisj]
  exact resolvedModels_lookup_file hnf hmem2 (hdisj name hkey)

/-- The backend the all-success run on `demoDir` produces. -/
def demoBackend : OnnxBackend :=
  { min_compute_capability := 0, path := "model", model_config := "cfg",
    platform := kOnnxRuntimeOnnxPlatform,
    models := [("model.bin", ArtifactEntry.Inline demoBytes)] }

/-- Witness for C3: a directory whose only entry is `model.bin`, holding
ten bytes of binary data including null bytes, resolves to an
ArtifactMap whose single entry is `Inline` of exactly those ten bytes. -/
theorem c3_inline_byte_exact_witness :
    ((CreateBackendRun envAllOk demoDir "model" "cfg" 0).result = CBResult.ok demoBackend ∧
      ("model.bin", demoBytes) ∈ demoDir.files ∧ isHidden "model.bin" = false) ∧
    lookupEntry demoBackend.models "model.bin" = some (ArtifactEntry.Inline demoBytes) :=
  ⟨⟨by decide, by decide, by decide⟩,
    c3_inline_byte_exact envAllOk demoDir "model" "cfg" 0 demoBackend
      "model.bin" demoBytes (by decide) (by decide) (by decide)
      (by decide) (by decide) (by decide)⟩

lemma contains_of_mem {l : List String} {a : String} (h : a ∈ l) :
    l.contains a = true := by
  induction l with
  | nil => cases h
  | cons x tl ih =>
    rw [List.contains_cons]
    rcases List.mem_cons.mp h with rfl | h2
    · simp
    · rw [ih h2]
      simp

/-- The ArtifactMap completeness contract: every non-hidden file name
appears exactly once, mapped to `Inline` of its contents; every
non-hidden subdirectory name appears exactly once, mapped to a
`Localized` path; and every key of the map is one of the scanned
names. -/
def C6prop (dir : ModelDir) (b : OnnxBackend) : Prop :=
  ((filteredFiles dir).all (fun p =>
      ((b.models.map Prod.fst).count p.1 == 1) &&
      (lookupEntry b.models p.1 == some (ArtifactEntry.Inline p.2))) = true) ∧
  ((filteredSubdirs dir).all (fun d =>
      ((b.models.map Prod.fst).count d == 1) &&
      isLocalizedOpt (lookupEntry b.models d)) = true) ∧
  (b.models.all (fun p =>
      (filteredSubdirs dir).contains p.1 ||
      ((filteredFiles dir).map Prod.fst).contains p.1) = true)

/-- C6: on a successful run, every non-hidden artifact name found by the
filesystem scan appears exactly once as a key in the ArtifactMap, mapped
to an `Inline` entry for files and to a `Localized` entry for
subdirectories — never both, never omitted — and no other keys exist. -/
theorem c6_artifact_map_complete (env : Env) (dir : ModelDir) (path : String)
    (cfg : ModelConfig) (mcc : Nat) (b : OnnxBackend)
    (hok : (CreateBackendRun env dir path cfg mcc).result = .ok b)
    (hns : (filteredSubdirs dir).Nodup)
    (hnf : ((filteredFiles dir).map Prod.fst).Nodup)
    (hdisj : ∀ k ∈ (filteredFiles dir).map Prod.fst, k ∉ filteredSubdirs dir) :
    C6prop dir b := by
  have hM := run_ok_models env dir path cfg mcc b hok hns hnf hdisj
  have hkeys : b.models.map Prod.fst =
      filteredSubdirs dir ++ (filteredFiles dir).map Prod.fst := by
    rw [hM]
    exact resolvedModels_keys env dir
  have hnodup : (filteredSubdirs dir ++ (filteredFiles dir).map Prod.fst).Nodup :=
    hns.append hnf (fun a ha haf => hdisj a haf ha)
  refine ⟨?_, ?_, ?_⟩
  · rw [List.all_eq_true]
    intro p hp
    rw [Bool.and_eq_true]
    constructor
    · have hc : (b.models.map Prod.fst).count p.1 = 1 := by
        rw [hkeys]
        exact List.count_eq_one_of_mem hnodup
          (List.mem_append.mpr (.inr (List.mem_map.mpr ⟨p, hp, rfl⟩)))
      simp [hc]
    · have hl : lookupEntry b.models p.1 = some (ArtifactEntry.Inline p.2) := by
        rw [hM]
        exact resolvedModels_lookup_file hnf (by simpa using hp)
          (hdisj p.1 (List.mem_map.mpr ⟨p, hp, rfl⟩))
      simp [hl]
  · rw [List.all_eq_true]
    intro d hd
    rw [Bool.and_eq_true]
    constructor
    · have hc : (b.models.map Prod.fst).count d = 1 := by
        rw [hkeys]
        exact List.count_eq_one_of_mem hnodup (List.mem_append.mpr (.inl hd))
      simp [hc]
    · rw [hM]
      exact resolvedModels_lookup_subdir hd
  · rw [List.all_eq_true]
    intro p hp
    have hk : p.1 ∈ filteredSubdirs dir ++ (filteredFiles dir).map Prod.fst := by
      rw [← hkeys]
      exact List.mem_map.mpr ⟨p, hp, rfl⟩
    rcases List.mem_append.mp hk with h2 | h2
    · rw [contains_of_mem h2]
      rfl
    · rw [contains_of_mem h2]
      simp

/-- A directory with two non-hidden files and one subdirectory (and a
hidden file that is skipped). -/
def richDir : ModelDir :=
  ⟨[("model.onnx", [8, 0, 1]), (".hidden", [9]), ("extra.bin", [2])], ["weights"]⟩

/-- The backend the all-success run on `richDir` produces. -/
def richBackend : OnnxBackend :=
  { min_compute_capability := 0, path := "model", model_config := "cfg",
    platform := kOnnxRuntimeOnnxPlatform,
    models := [("weights", ArtifactEntry.Localized "/tmp/folder0"),
      ("model.onnx", ArtifactEntry.Inline [8, 0, 1]),
      ("extra.bin", ArtifactEntry.Inline [2])] }

/-- Witness for C6: on a directory with two non-hidden files and one
subdirectory, the successful run's map holds exactly the three scanned
names, files as `Inline` and the subdirectory as `Localized`. -/
theorem c6_artifact_map_complete_witness :
    ((CreateBackendRun envAllOk richDir "model" "cfg" 0).result = CBResult.ok richBackend ∧
      (filteredSubdirs richDir).Nodup ∧
      ((filteredFiles richDir).map Prod.fst).Nodup) ∧
    C6prop richDir richBackend :=
  ⟨⟨by decide, by decide, by decide⟩,
    c6_artifact_map_complete envAllOk richDir "model" "cfg" 0 richBackend
      (by decide) (by decide) (by decide) (by decide)⟩

/-! ### Claim C7 -/

lemma preTrace_relIdx_none {n : Nat} : ∀ e ∈ preTrace n, relIdx e = none := by
  intro e he
  rcases mem_preTrace he with rfl | rfl | ⟨i, rfl⟩ <;> rfl

lemma subdirTrace_filterMap_relIdx (env : Env) (dir : ModelDir) :
    (subdirTrace env dir).filterMap relIdx = [] :=
  filterMap_none_of (subdirTrace_relIdx_none env dir)

lemma subdirTrace_filterMap_allocIdx (env : Env) (dir : ModelDir) :
    (subdirTrace env dir).filterMap allocIdx = [] :=
  filterMap_none_of (subdirTrace_allocIdx_none env dir)

lemma fileTrace_filterMap_relIdx (env : Env) (dir : ModelDir) :
    (fileTrace env dir).filterMap relIdx = [] :=
  filterMap_none_of (fileTrace_relIdx_none env dir)

lemma fileTrace_filterMap_allocIdx (env : Env) (dir : ModelDir) :
    (fileTrace env dir).filterMap allocIdx = [] :=
  filterMap_none_of (fileTrace_allocIdx_none env dir)

/-- The store-lifetime contract of one trace: no store release happens
before `CreateExecutionContexts` (nor before backend `Init`); the
released store indices are exactly the allocated store indices, in
order; and once releasing begins, nothing but releases follows (stores
are torn down only at call exit). -/
def C7prop (tr : List Event) : Prop :=
  noReleaseBefore Event.createExecCtxs tr = true ∧
  noReleaseBefore Event.backendInit tr = true ∧
  tr.filterMap relIdx = tr.filterMap allocIdx ∧
  releasesSuffix tr = true

/-- C7: during every `CreateBackend` call (on directory shapes where the
C++ has defined behavior), no `ScopedLocalStore` is released before
`CreateExecutionContexts` returns — every allocated store stays alive
through backend `Init` and execution-context creation — and every
allocated store is released exactly when the call exits, on success and
on every error path alike. -/
theorem c7_store_lifetime (env : Env) (dir : ModelDir) (path : String)
    (cfg : ModelConfig) (mcc : Nat)
    (h : (filteredSubdirs dir).length ≤ (filteredFiles dir).length) :
    C7prop (CreateBackendRun env dir path cfg mcc).trace := by
  unfold C7prop
  cases hgf : env.getFilesErr with
  | some e =>
    rw [runEq_filesErr dir path cfg mcc hgf]
    exact ⟨rfl, rfl, rfl, rfl⟩
  | none =>
  cases hgs : env.getSubdirsErr with
  | some e =>
    rw [runEq_subdirsErr dir path cfg mcc hgf hgs]
    exact ⟨rfl, rfl, rfl, rfl⟩
  | none =>
  cases hsr : subdirResolve env dir with
  | oob =>
    exfalso
    refine localizeLoopRes_ne_oob env (filteredSubdirs dir) 0 [] ?_ hsr
    omega
  | err e =>
    rw [runEq_locErr dir path cfg mcc hgf hgs hsr]
    have hA : ∀ e2 ∈ preTrace (filteredFiles dir).length ++ subdirTrace env dir,
        isRelease e2 = false :=
      append_all_false preTrace_no_release (subdirTrace_no_release env dir)
    refine ⟨noReleaseBefore_append hA releaseEvents_all_release releaseEvents_no_cec,
      noReleaseBefore_append hA releaseEvents_all_release releaseEvents_no_init, ?_,
      releasesSuffix_append hA releaseEvents_all_release⟩
    simp [List.filterMap_append, preTrace_filterMap_relIdx, preTrace_filterMap_allocIdx,
      subdirTrace_filterMap_relIdx, subdirTrace_filterMap_allocIdx,
      releaseEvents_filterMap_relIdx, releaseEvents_filterMap_allocIdx]
  | ok m1 =>
  cases hfr : fileResolve env dir m1 with
  | error e =>
    rw [runEq_readErr dir path cfg mcc hgf hgs hsr hfr]
    have hA : ∀ e2 ∈ preTrace (filteredFiles dir).length ++ subdirTrace env dir ++
        fileTrace env dir, isRelease e2 = false :=
      append_all_false (append_all_false preTrace_no_release (subdirTrace_no_release env dir))
        (fileTrace_no_release env dir)
    refine ⟨noReleaseBefore_append hA releaseEvents_all_release releaseEvents_no_cec,
      noReleaseBefore_append hA releaseEvents_all_release releaseEvents_no_init, ?_,
      releasesSuffix_append hA releaseEvents_all_release⟩
    simp [List.filterMap_append, preTrace_filterMap_relIdx, preTrace_filterMap_allocIdx,
      subdirTrace_filterMap_relIdx, subdirTrace_filterMap_allocIdx,
      fileTrace_filterMap_relIdx, fileTrace_filterMap_allocIdx,
      releaseEvents_filterMap_relIdx, releaseEvents_filterMap_allocIdx]
  | ok m2 =>
  cases hie : env.initErr with
  | some e =>
    rw [runEq_initErr dir path cfg mcc hgf hgs hsr hfr hie]
    have hA : ∀ e2 ∈ preTrace (filteredFiles dir).length ++ subdirTrace env dir ++
        fileTrace env dir ++ [Event.backendInit], isRelease e2 = false :=
      append_all_false (append_all_false (append_all_false preTrace_no_release
        (subdirTrace_no_release env dir)) (fileTrace_no_release env dir)) initMid_no_release
    refine ⟨noReleaseBefore_append hA releaseEvents_all_release releaseEvents_no_cec,
      noReleaseBefore_append hA releaseEvents_all_release releaseEvents_no_init, ?_,
      releasesSuffix_append hA releaseEvents_all_release⟩
    simp [List.filterMap_append, preTrace_filterMap_relIdx, preTrace_filterMap_allocIdx,
      subdirTrace_filterMap_relIdx, subdirTrace_filterMap_allocIdx,
      fileTrace_filterMap_relIdx, fileTrace_filterMap_allocIdx,
      releaseEvents_filterMap_relIdx, releaseEvents_filterMap_allocIdx,
      List.filterMap_cons, relIdx, allocIdx]
  | none =>
  cases hce : env.cecErr with
  | some e =>
    rw [runEq_cecErr dir path cfg mcc hgf hgs hsr hfr hie hce]
    have hA : ∀ e2 ∈ preTrace (filteredFiles dir).length ++ subdirTrace env dir ++
        fileTrace env dir ++ [Event.backendInit, Event.createExecCtxs],
        isRelease e2 = false :=
      append_all_false (append_all_false (append_all_false preTrace_no_release
        (subdirTrace_no_release env dir)) (fileTrace_no_release env dir)) initCecMid_no_release
    refine ⟨noReleaseBefore_append hA releaseEvents_all_release releaseEvents_no_cec,
      noReleaseBefore_append hA releaseEvents_all_release releaseEvents_no_init, ?_,
      releasesSuffix_append hA releaseEvents_all_release⟩
    simp [List.filterMap_append, preTrace_filterMap_relIdx, preTrace_filterMap_allocIdx,
      subdirTrace_filterMap_relIdx, subdirTrace_filterMap_allocIdx,
      fileTrace_filterMap_relIdx, fileTrace_filterMap_allocIdx,
      releaseEvents_filterMap_relIdx, releaseEvents_filterMap_allocIdx,
      List.filterMap_cons, relIdx, allocIdx]
  | none =>
    rw [runEq_ok dir path cfg mcc hgf hgs hsr hfr hie hce]
    have hA : ∀ e2 ∈ preTrace (filteredFiles dir).length ++ subdirTrace env dir ++
        fileTrace env dir ++ [Event.backendInit, Event.createExecCtxs],
        isRelease e2 = false :=
      append_all_false (append_all_false (append_all_false preTrace_no_release
        (subdirTrace_no_release env dir)) (fileTrace_no_release env dir)) initCecMid_no_release
    refine ⟨noReleaseBefore_append hA releaseEvents_all_release releaseEvents_no_cec,
      noReleaseBefore_append hA releaseEvents_all_release releaseEvents_no_init, ?_,
      releasesSuffix_append hA releaseEvents_all_release⟩
    simp [List.filterMap_append, preTrace_filterMap_relIdx, preTrace_filterMap_allocIdx,
      subdirTrace_filterMap_relIdx, subdirTrace_filterMap_allocIdx,
      fileTrace_filterMap_relIdx, fileTrace_filterMap_allocIdx,
      releaseEvents_filterMap_relIdx, releaseEvents_filterMap_allocIdx,
      List.filterMap_cons, relIdx, allocIdx]

/-- Witness for C7: on a directory with two files and one subdirectory,
the run's trace releases both stores only at exit, after
`CreateExecutionContexts`. -/
theorem c7_store_lifetime_witness :
    (filteredSubdirs richDir).length ≤ (filteredFiles richDir).length ∧
    C7prop (CreateBackendRun envAllOk richDir "model" "cfg" 0).trace :=
  ⟨by decide, c7_store_lifetime envAllOk richDir "model" "cfg" 0 (by decide)⟩

/-! ### Claims C2 and C10 -/

/-- C2, counterexample to the claim as stated: the configuration
`BackendConfig.other "netdef"` does not match the ONNX runtime shape,
yet `Create` still invokes Loader `Init()` and returns an owned factory
rather than a `ConfigTypeError` — `static_pointer_cast` performs no
runtime check, so no incompatible configuration is ever rejected. -/
theorem c2_counterexample :
    matchesRuntimeShape (BackendConfig.other "netdef") = false ∧
    FEvent.loaderInit ∈
      (OnnxBackendFactoryCreate none (BackendConfig.other "netdef") none).trace ∧
    (OnnxBackendFactoryCreate none (BackendConfig.other "netdef") none).result =
      Except.ok { backend_config := BackendConfig.other "netdef" } :=
  ⟨rfl, by decide, rfl⟩

/-- C2 as amended: `Create` performs an unchecked static down-cast and
never checks the configuration's runtime shape — for every configuration,
compatible or not, it invokes Loader `Init()`; an `Init` failure is
propagated unchanged with the output parameter untouched, and otherwise
an owned factory instance holding the configuration is returned. -/
theorem c2_create_unchecked (initErr : Option String) (cfg : BackendConfig)
    (factoryIn : Option OnnxBackendFactory) :
    FEvent.loaderInit ∈ (OnnxBackendFactoryCreate initErr cfg factoryIn).trace ∧
    (OnnxBackendFactoryCreate initErr cfg factoryIn).result =
      (match initErr with
       | some e => Except.error e
       | none => Except.ok { backend_config := cfg }) ∧
    (OnnxBackendFactoryCreate initErr cfg factoryIn).factoryOut =
      (match initErr with
       | some _ => factoryIn
       | none => some { backend_config := cfg }) := by
  cases initErr with
  | some e => exact ⟨by simp [OnnxBackendFactoryCreate], rfl, rfl⟩
  | none => exact ⟨by simp [OnnxBackendFactoryCreate], rfl, rfl⟩

/-- C10: when Loader `Init()` fails during `Create`, the factory output
parameter is left unmodified (no factory instance escapes to the
caller), and the partially constructed local factory is destroyed on
the way out, which invokes Loader `Stop()` — visible as the `loaderStop`
event right after the failed `loaderInit`, with no successful `Init`
preceding it. -/
theorem c10_init_failure_stop (e : String) (cfg : BackendConfig)
    (factoryIn : Option OnnxBackendFactory) :
    (OnnxBackendFactoryCreate (some e) cfg factoryIn).result = Except.error e ∧
    (OnnxBackendFactoryCreate (some e) cfg factoryIn).factoryOut = factoryIn ∧
    (OnnxBackendFactoryCreate (some e) cfg factoryIn).trace =
      [FEvent.construct, FEvent.loaderInit, FEvent.loaderStop] :=
  ⟨rfl, rfl, rfl⟩

end TritonOnnx
